import Mathlib

/-!
# Verification of the activity-collector aggregation core

Shallow embedding of the repository's aggregation core:
* the data model (`src/types/index.ts`),
* the activity distributor (`ActivityDistributor`),
* the activity cache (`src/utils/cache.ts`),
* the fetch orchestration helpers (`fetchGitLabActivityWithCache`,
  `fetchCalendarEventsWithCache`, `fetchDayActivityParallel`,
  `fetchMultipleDaysParallel`).

JavaScript `Date` objects are modelled as epoch milliseconds (`Int`); the
running process's time zone is an explicit parameter `off` (minutes east of
UTC).  Machine integers do not overflow in the modelled ranges, so plain
`Int`/`Nat` are used.  Fallible adapter calls are modelled as
`String → Except Unit α`.
-/

namespace ActivityCollector

/-! ## Data model (src/types/index.ts) -/

structure Commit where
  message : String
  project : String
  branch : String
deriving DecidableEq, Repr, Inhabited

inductive MRAction
  | created | reviewed | approved | commented | closed | merged
deriving DecidableEq, Repr, Inhabited

structure MergeRequest where
  action : MRAction
  title : String
  project : String
  id : Option Int
deriving DecidableEq, Repr, Inhabited

inductive IssueAction
  | commented | status_changed | assigned | opened | closed
deriving DecidableEq, Repr, Inhabited

structure Issue where
  action : IssueAction
  title : String
  project : String
  id : Option Int
  details : Option String
deriving DecidableEq, Repr, Inhabited

/-- `GitLabActivity` from src/types/index.ts; `date` is epoch milliseconds. -/
structure GitLabActivity where
  date : Int
  commits : List Commit
  mergeRequests : List MergeRequest
  issues : List Issue
deriving DecidableEq, Repr, Inhabited

structure CalendarEvent where
  title : String
  start : Int
  stop : Int
  attendees : Option Int
deriving DecidableEq, Repr, Inhabited

structure DayActivity where
  date : Int
  meetings : List CalendarEvent
  gitlabActivity : GitLabActivity
  description : String
deriving DecidableEq, Repr, Inhabited

/-! ## Activity distributor (ActivityDistributor, src/unnamed/part_001)

The TypeScript methods mutate a shared array in place; here each step maps an
`Array DayActivity` to a new one.  The three copy-pasted per-kind distribution
loops of `distributeWorkAcrossGap` are translated once, parameterised by the
accessor/updater/tagger of the item kind, and instantiated three times. -/

structure DistributionInfo where
  daysWithGaps : Nat
  daysDistributed : Nat
  message : String
deriving DecidableEq, Repr

structure DistributionResult where
  activities : List DayActivity
  distributionInfo : DistributionInfo
deriving DecidableEq, Repr

def hasAnyActivity (day : DayActivity) : Bool :=
  day.meetings.length > 0 ||
  day.gitlabActivity.commits.length > 0 ||
  day.gitlabActivity.mergeRequests.length > 0 ||
  day.gitlabActivity.issues.length > 0

def findNextActivityDayAux (activities : Array DayActivity) (i : Nat) : Option Nat :=
  if h : i < activities.size then
    if hasAnyActivity activities[i] then some i
    else findNextActivityDayAux activities (i + 1)
  else none
termination_by activities.size - i

/-- `findNextActivityDay`: first index after `startIndex` holding activity
(`-1` in the source becomes `none`). -/
def findNextActivityDay (activities : Array DayActivity) (startIndex : Nat) : Option Nat :=
  findNextActivityDayAux activities (startIndex + 1)

def tagCommit (c : Commit) : Commit :=
  { c with message := "[Distributed] " ++ c.message }

def tagMergeRequest (m : MergeRequest) : MergeRequest :=
  { m with title := "[Distributed] " ++ m.title }

def tagIssue (it : Issue) : Issue :=
  { it with title := "[Distributed] " ++ it.title }

/-- One per-kind loop of `distributeWorkAcrossGap` (the source repeats this
shape verbatim for commits, merge requests and issues).  Walks the gap days
`i ∈ [gapStart, activityIndex)`, appending up to `perDay` tagged items taken
from `source` starting at `idx`; returns the updated array and the final item
index. -/
def distributeItemsLoop {α : Type} (getItems : GitLabActivity → List α)
    (setItems : GitLabActivity → List α → GitLabActivity) (tag : α → α)
    (source : List α) (perDay : Nat) (activityIndex : Nat)
    (arr : Array DayActivity) (i idx : Nat) : Array DayActivity × Nat :=
  if i < activityIndex then
    let toAdd := min perDay (source.length - idx)
    if 0 < toAdd then
      let distributedItems := ((source.drop idx).take toAdd).map tag
      let arr2 := arr.modify i (fun day =>
        { day with gitlabActivity :=
            setItems day.gitlabActivity (getItems day.gitlabActivity ++ distributedItems) })
      distributeItemsLoop getItems setItems tag source perDay activityIndex arr2 (i + 1) (idx + toAdd)
    else
      distributeItemsLoop getItems setItems tag source perDay activityIndex arr (i + 1) idx
  else (arr, idx)
termination_by activityIndex - i

/-- The synthetic marker commit prepended to the source day. -/
def distributionNote (gapSize : Nat) : Commit :=
  { message := "[Note: Some activities from this day were distributed to previous " ++
      toString gapSize ++ " day(s) without recorded work]"
    project := "System"
    branch := "distribution" }

def distributeWorkAcrossGap (activities : Array DayActivity)
    (gapStart activityIndex gapSize : Nat) : Array DayActivity :=
  let sourceActivity := activities.getD activityIndex default
  let commitsPerDay := sourceActivity.gitlabActivity.commits.length / (gapSize + 1)
  let mrsPerDay := sourceActivity.gitlabActivity.mergeRequests.length / (gapSize + 1)
  let issuesPerDay := sourceActivity.gitlabActivity.issues.length / (gapSize + 1)
  let resC := distributeItemsLoop (fun g => g.commits) (fun g l => { g with commits := l })
    tagCommit sourceActivity.gitlabActivity.commits commitsPerDay activityIndex
    activities gapStart 0
  let resM := distributeItemsLoop (fun g => g.mergeRequests) (fun g l => { g with mergeRequests := l })
    tagMergeRequest sourceActivity.gitlabActivity.mergeRequests mrsPerDay activityIndex
    resC.1 gapStart 0
  let resI := distributeItemsLoop (fun g => g.issues) (fun g l => { g with issues := l })
    tagIssue sourceActivity.gitlabActivity.issues issuesPerDay activityIndex
    resM.1 gapStart 0
  if 0 < resC.2 || 0 < resM.2 || 0 < resI.2 then
    resI.1.modify activityIndex (fun day =>
      { day with gitlabActivity :=
          { day.gitlabActivity with
              commits := distributionNote gapSize :: day.gitlabActivity.commits } })
  else resI.1

theorem distributeItemsLoop_size {α : Type} (getItems : GitLabActivity → List α)
    (setItems : GitLabActivity → List α → GitLabActivity) (tag : α → α)
    (source : List α) (perDay activityIndex : Nat) (arr : Array DayActivity) (i idx : Nat) :
    (distributeItemsLoop getItems setItems tag source perDay activityIndex arr i idx).1.size
      = arr.size := by
  have key : ∀ (n : Nat) (arr : Array DayActivity) (i idx : Nat), activityIndex - i = n →
      (distributeItemsLoop getItems setItems tag source perDay activityIndex arr i idx).1.size
        = arr.size := by
    intro n
    induction n with
    | zero =>
      intro arr i idx hn
      rw [distributeItemsLoop]
      have h : ¬ i < activityIndex := by omega
      simp [h]
    | succ n ih =>
      intro arr i idx hn
      rw [distributeItemsLoop]
      have h : i < activityIndex := by omega
      by_cases h2 : 0 < min perDay (source.length - idx)
      · simp only [if_pos h, if_pos h2]
        rw [ih _ _ _ (by omega)]
        simp
      · simp only [if_pos h, if_neg h2]
        exact ih _ _ _ (by omega)
  exact key _ arr i idx rfl

theorem distributeWorkAcrossGap_size (arr : Array DayActivity) (gapStart activityIndex gapSize : Nat) :
    (distributeWorkAcrossGap arr gapStart activityIndex gapSize).size = arr.size := by
  rw [distributeWorkAcrossGap]
  split
  · simp [distributeItemsLoop_size]
  · simp [distributeItemsLoop_size]

/-- The scan of `distributeActivities` (the `for` loop over the sorted array);
`i` advances by one each iteration, `gapDays`/`distributedDays` accumulate. -/
def distributeLoop (arr : Array DayActivity) (i gapDays distributedDays : Nat) :
    Array DayActivity × Nat × Nat :=
  if h : i < arr.size then
    if hasAnyActivity arr[i] then distributeLoop arr (i + 1) gapDays distributedDays
    else
      match findNextActivityDay arr i with
      | some nextActivityIndex =>
        distributeLoop (distributeWorkAcrossGap arr i nextActivityIndex (nextActivityIndex - i))
          (i + 1) (gapDays + (nextActivityIndex - i)) (distributedDays + 1)
      | none => distributeLoop arr (i + 1) gapDays distributedDays
  else (arr, gapDays, distributedDays)
termination_by arr.size - i
decreasing_by
  · omega
  · rw [distributeWorkAcrossGap_size]; omega
  · omega

/-- Models the stable in-place `sort((a, b) => a.date.getTime() - b.date.getTime())`. -/
def sortActivities (l : List DayActivity) : List DayActivity :=
  l.insertionSort (fun a b => a.date ≤ b.date)

def distributedMessage (gapDays : Nat) : String :=
  "Note: " ++ toString gapDays ++
    " day(s) had no recorded activity. Work from subsequent days was distributed proportionally. Distributed entries are marked with [Distributed]."

def distributeActivities (activities : List DayActivity) : DistributionResult :=
  let distributed := (sortActivities activities).toArray
  let res := distributeLoop distributed 0 0 0
  let message := if 0 < res.2.2 then distributedMessage res.2.1 else ""
  { activities := res.1.toList
    distributionInfo :=
      { daysWithGaps := res.2.1, daysDistributed := res.2.2, message := message } }

/-! ### Intelligent (phased) distribution -/

def summarizeWork (activity : DayActivity) : String :=
  let parts : List String :=
    (match activity.gitlabActivity.commits with
      | c :: _ => [c.message.take 50]
      | [] => []) ++
    (match activity.gitlabActivity.mergeRequests with
      | m :: _ => [m.title.take 50]
      | [] => []) ++
    (match activity.gitlabActivity.issues with
      | it :: _ => [it.title.take 50]
      | [] => [])
  let joined := String.intercalate ", " parts
  if joined = "" then "project work" else joined

def phaseNames : List String :=
  ["Planning", "Research", "Design", "Implementation", "Testing", "Refinement", "Documentation"]

def generateWorkPhases (gapSize : Nat) (sourceActivity : DayActivity) : List String :=
  let workSummary := summarizeWork sourceActivity
  if gapSize = 1 then
    ["[Phase: Research & Planning] Preparation for: " ++ workSummary]
  else if gapSize = 2 then
    ["[Phase: Analysis] Initial work on: " ++ workSummary,
     "[Phase: Development] Continued work on: " ++ workSummary]
  else if gapSize = 3 then
    ["[Phase: Planning] Planned work for: " ++ workSummary,
     "[Phase: Implementation] Developed features for: " ++ workSummary,
     "[Phase: Testing] Testing and refinement for: " ++ workSummary]
  else
    (List.range gapSize).map (fun i =>
      "[Phase: " ++ phaseNames.getD (i % phaseNames.length) "" ++ "] Work on: " ++ workSummary)

def distributeWorkPhasesLoop (phases : List String) (gapStart activityIndex : Nat)
    (arr : Array DayActivity) (i : Nat) : Array DayActivity :=
  if i < phases.length ∧ gapStart + i < activityIndex then
    let phase := phases.getD i ""
    let dayIndex := gapStart + i
    distributeWorkPhasesLoop phases gapStart activityIndex
      (arr.modify dayIndex (fun day =>
        { day with gitlabActivity :=
            { day.gitlabActivity with
                commits := day.gitlabActivity.commits ++
                  [{ message := phase, project := "Distributed Work",
                     branch := "phase-distribution" }] } }))
      (i + 1)
  else arr
termination_by phases.length - i
decreasing_by omega

def distributeWorkPhases (activities : Array DayActivity) (gapStart activityIndex gapSize : Nat)
    (sourceActivity : DayActivity) : Array DayActivity :=
  distributeWorkPhasesLoop (generateWorkPhases gapSize sourceActivity) gapStart activityIndex
    activities 0

theorem distributeWorkPhasesLoop_size (phases : List String) (gapStart activityIndex : Nat)
    (arr : Array DayActivity) (i : Nat) :
    (distributeWorkPhasesLoop phases gapStart activityIndex arr i).size = arr.size := by
  have key : ∀ (n : Nat) (arr : Array DayActivity) (i : Nat), phases.length - i = n →
      (distributeWorkPhasesLoop phases gapStart activityIndex arr i).size = arr.size := by
    intro n
    induction n with
    | zero =>
      intro arr i hn
      rw [distributeWorkPhasesLoop]
      have h : ¬ (i < phases.length ∧ gapStart + i < activityIndex) := by omega
      simp [h]
    | succ n ih =>
      intro arr i hn
      rw [distributeWorkPhasesLoop]
      by_cases h : i < phases.length ∧ gapStart + i < activityIndex
      · simp only [if_pos h]
        rw [ih _ _ (by omega)]
        simp
      · simp [h]
  exact key _ arr i rfl

theorem distributeWorkPhases_size (arr : Array DayActivity) (gapStart activityIndex gapSize : Nat)
    (sourceActivity : DayActivity) :
    (distributeWorkPhases arr gapStart activityIndex gapSize sourceActivity).size = arr.size := by
  rw [distributeWorkPhases, distributeWorkPhasesLoop_size]

/-- The scan of `distributeActivitiesIntelligent`. -/
def intelligentLoop (arr : Array DayActivity) (i gapDays distributedDays : Nat) :
    Array DayActivity × Nat × Nat :=
  if h : i < arr.size then
    if hasAnyActivity arr[i] then intelligentLoop arr (i + 1) gapDays distributedDays
    else
      match findNextActivityDay arr i with
      | some nextActivityIndex =>
        intelligentLoop
          (distributeWorkPhases arr i nextActivityIndex (nextActivityIndex - i)
            (arr.getD nextActivityIndex default))
          (i + 1) (gapDays + (nextActivityIndex - i)) (distributedDays + 1)
      | none => intelligentLoop arr (i + 1) gapDays distributedDays
  else (arr, gapDays, distributedDays)
termination_by arr.size - i
decreasing_by
  · omega
  · rw [distributeWorkPhases_size]; omega
  · omega

def phasedMessage (gapDays : Nat) : String :=
  "Note: " ++ toString gapDays ++
    " day(s) had no recorded activity. Work phases were inferred and distributed. Entries are marked with [Phase: X]."

def distributeActivitiesIntelligent (activities : List DayActivity) : DistributionResult :=
  let distributed := (sortActivities activities).toArray
  let res := intelligentLoop distributed 0 0 0
  let message := if 0 < res.2.2 then phasedMessage res.2.1 else ""
  { activities := res.1.toList
    distributionInfo :=
      { daysWithGaps := res.2.1, daysDistributed := res.2.2, message := message } }

/-! ## Dates and day keys

A JavaScript `Date` is an instant, modelled as epoch milliseconds (`Int`).
`new Date(year, month - 1, day)` builds local midnight; the process time zone
is a fixed offset `off` in minutes east of UTC.  `toISOString` renders the
instant's UTC calendar day.  Civil-date/epoch-day conversions follow the
standard proleptic-Gregorian algorithms the JS engine implements. -/

def daysFromCivil (y m d : Int) : Int :=
  let y2 := y - (if m ≤ 2 then 1 else 0)
  let era := Int.fdiv y2 400
  let yoe := y2 - era * 400
  let mp := if 2 < m then m - 3 else m + 9
  let doy := Int.fdiv (153 * mp + 2) 5 + d - 1
  let doe := yoe * 365 + Int.fdiv yoe 4 - Int.fdiv yoe 100 + doy
  era * 146097 + doe - 719468

def civilFromDays (z0 : Int) : Int × Int × Int :=
  let z := z0 + 719468
  let era := Int.fdiv z 146097
  let doe := z - era * 146097
  let yoe := Int.fdiv (doe - Int.fdiv doe 1460 + Int.fdiv doe 36524 - Int.fdiv doe 146096) 365
  let y := yoe + era * 400
  let doy := doe - (365 * yoe + Int.fdiv yoe 4 - Int.fdiv yoe 100)
  let mp := Int.fdiv (5 * doy + 2) 153
  let d := doy - Int.fdiv (153 * mp + 2) 5 + 1
  let m := mp + (if mp < 10 then 3 else -9)
  (y + (if m ≤ 2 then 1 else 0), m, d)

def pad2 (n : Int) : String :=
  if n < 10 then "0" ++ toString n else toString n

def pad4 (n : Int) : String :=
  if n < 10 then "000" ++ toString n
  else if n < 100 then "00" ++ toString n
  else if n < 1000 then "0" ++ toString n
  else toString n

def formatDayKey : Int × Int × Int → String
  | (y, m, d) => pad4 y ++ "-" ++ pad2 m ++ "-" ++ pad2 d

/-- `getDateKey(date)` = `date.toISOString().split('T')[0]`: the UTC calendar
day of the instant. -/
def getDateKey (dateMs : Int) : String :=
  formatDayKey (civilFromDays (Int.fdiv dateMs 86400000))

/-- `split('-')` over the character list (structural, so the kernel can
evaluate it on literals). -/
def splitOnDash : List Char → List (List Char)
  | [] => [[]]
  | ch :: t =>
    if ch = '-' then [] :: splitOnDash t
    else
      match splitOnDash t with
      | [] => [[ch]]
      | g :: gs => (ch :: g) :: gs

/-- `Number(t)` for an all-digit token. -/
def digitsToNat (cs : List Char) : Nat :=
  cs.foldl (fun acc ch => acc * 10 + (ch.toNat - 48)) 0

/-- `const [year, month, day] = dateStr.split('-').map(Number)`. -/
def parseDateStr (s : String) : Int × Int × Int :=
  match (splitOnDash s.data).map (fun t => (digitsToNat t : Int)) with
  | [y, m, d] => (y, m, d)
  | _ => (0, 0, 0)

/-- `new Date(year, month - 1, day)` in a process whose local time zone sits
`off` minutes east of UTC: the epoch instant of local midnight. -/
def mkDateLocal (y m d off : Int) : Int :=
  daysFromCivil y m d * 86400000 - off * 60000

/-- The `// Parse date for cache lookup` snippet repeated through
src/unnamed/part_006: `dateStr` split into numbers and rebuilt as a local
`Date`. -/
def localDateOf (off : Int) (dateStr : String) : Int :=
  let ymd := parseDateStr dateStr
  mkDateLocal ymd.1 ymd.2.1 ymd.2.2 off

/-! ## Activity cache (src/utils/cache.ts)

Namespaces are JS objects keyed by day string: association lists with
insert-or-replace assignment, first-match lookup, and key deletion.  `save()`
serialises the whole store to the cache file, modelled by the `persisted`
field. -/

structure CacheEntry (α : Type) where
  data : α
  timestamp : Int
  source : String
deriving DecidableEq, Repr

def nsLookup {α : Type} (ns : List (String × CacheEntry α)) (key : String) :
    Option (CacheEntry α) :=
  match ns.find? (fun p => p.1 = key) with
  | some p => some p.2
  | none => none

def nsInsert {α : Type} (ns : List (String × CacheEntry α)) (key : String)
    (e : CacheEntry α) : List (String × CacheEntry α) :=
  match ns with
  | [] => [(key, e)]
  | p :: t => if p.1 = key then (key, e) :: t else p :: nsInsert t key e

def nsDelete {α : Type} (ns : List (String × CacheEntry α)) (key : String) :
    List (String × CacheEntry α) :=
  ns.filter (fun p => ¬ p.1 = key)

structure CacheData where
  gitlab : List (String × CacheEntry GitLabActivity)
  googleCalendar : List (String × CacheEntry (List CalendarEvent))
  outlookCalendar : List (String × CacheEntry (List CalendarEvent))
deriving DecidableEq, Repr

structure CacheStats where
  gitlabHits : Nat
  gitlabMisses : Nat
  googleHits : Nat
  googleMisses : Nat
  outlookHits : Nat
  outlookMisses : Nat
deriving DecidableEq, Repr

def emptyCacheData : CacheData :=
  { gitlab := [], googleCalendar := [], outlookCalendar := [] }

def zeroStats : CacheStats :=
  { gitlabHits := 0, gitlabMisses := 0, googleHits := 0, googleMisses := 0,
    outlookHits := 0, outlookMisses := 0 }

/-- The `ActivityCache` instance: in-memory store, TTL, hit/miss counters, and
the persisted copy written by `save()`. -/
structure ActivityCache where
  cache : CacheData
  cacheTTL : Int
  cacheStats : CacheStats
  persisted : CacheData
deriving DecidableEq, Repr

def emptyActivityCache (ttl : Int) : ActivityCache :=
  { cache := emptyCacheData, cacheTTL := ttl, cacheStats := zeroStats,
    persisted := emptyCacheData }

def isExpired (c : ActivityCache) (now timestamp : Int) : Bool :=
  now - timestamp > c.cacheTTL

/-- `save()`: writes the whole in-memory store to the cache file. -/
def save (c : ActivityCache) : ActivityCache :=
  { c with persisted := c.cache }

def getGitLabActivity (c : ActivityCache) (now dateMs : Int) :
    Option GitLabActivity × ActivityCache :=
  let key := getDateKey dateMs
  match nsLookup c.cache.gitlab key with
  | none =>
    (none, { c with cacheStats := { c.cacheStats with gitlabMisses := c.cacheStats.gitlabMisses + 1 } })
  | some entry =>
    if isExpired c now entry.timestamp then
      (none, { c with
        cache := { c.cache with gitlab := nsDelete c.cache.gitlab key },
        cacheStats := { c.cacheStats with gitlabMisses := c.cacheStats.gitlabMisses + 1 } })
    else
      (some entry.data,
       { c with cacheStats := { c.cacheStats with gitlabHits := c.cacheStats.gitlabHits + 1 } })

def setGitLabActivity (c : ActivityCache) (now dateMs : Int) (activity : GitLabActivity) :
    ActivityCache :=
  let key := getDateKey dateMs
  save { c with cache := { c.cache with
    gitlab := nsInsert c.cache.gitlab key
      { data := activity, timestamp := now, source := "gitlab" } } }

def getGoogleCalendarEvents (c : ActivityCache) (now dateMs : Int) :
    Option (List CalendarEvent) × ActivityCache :=
  let key := getDateKey dateMs
  match nsLookup c.cache.googleCalendar key with
  | none =>
    (none, { c with cacheStats := { c.cacheStats with googleMisses := c.cacheStats.googleMisses + 1 } })
  | some entry =>
    if isExpired c now entry.timestamp then
      (none, { c with
        cache := { c.cache with googleCalendar := nsDelete c.cache.googleCalendar key },
        cacheStats := { c.cacheStats with googleMisses := c.cacheStats.googleMisses + 1 } })
    else
      (some entry.data,
       { c with cacheStats := { c.cacheStats with googleHits := c.cacheStats.googleHits + 1 } })

def setGoogleCalendarEvents (c : ActivityCache) (now dateMs : Int)
    (events : List CalendarEvent) : ActivityCache :=
  let key := getDateKey dateMs
  save { c with cache := { c.cache with
    googleCalendar := nsInsert c.cache.googleCalendar key
      { data := events, timestamp := now, source := "google_calendar" } } }

def getOutlookCalendarEvents (c : ActivityCache) (now dateMs : Int) :
    Option (List CalendarEvent) × ActivityCache :=
  let key := getDateKey dateMs
  match nsLookup c.cache.outlookCalendar key with
  | none =>
    (none, { c with cacheStats := { c.cacheStats with outlookMisses := c.cacheStats.outlookMisses + 1 } })
  | some entry =>
    if isExpired c now entry.timestamp then
      (none, { c with
        cache := { c.cache with outlookCalendar := nsDelete c.cache.outlookCalendar key },
        cacheStats := { c.cacheStats with outlookMisses := c.cacheStats.outlookMisses + 1 } })
    else
      (some entry.data,
       { c with cacheStats := { c.cacheStats with outlookHits := c.cacheStats.outlookHits + 1 } })

def setOutlookCalendarEvents (c : ActivityCache) (now dateMs : Int)
    (events : List CalendarEvent) : ActivityCache :=
  let key := getDateKey dateMs
  save { c with cache := { c.cache with
    outlookCalendar := nsInsert c.cache.outlookCalendar key
      { data := events, timestamp := now, source := "outlook_calendar" } } }

def resetStats (c : ActivityCache) : ActivityCache :=
  { c with cacheStats := zeroStats }

def clearAll (c : ActivityCache) : ActivityCache :=
  resetStats (save { c with cache := emptyCacheData })

def clearGitLab (c : ActivityCache) : ActivityCache :=
  save { c with cache := { c.cache with gitlab := [] } }

def clearCalendars (c : ActivityCache) : ActivityCache :=
  save { c with cache := { c.cache with googleCalendar := [], outlookCalendar := [] } }

/-- `clearExpired`: sweeps every namespace, deleting entries past the TTL. -/
def clearExpired (c : ActivityCache) (now : Int) : ActivityCache :=
  save { c with cache :=
    { gitlab := c.cache.gitlab.filter (fun p => ¬ now - p.2.timestamp > c.cacheTTL)
      googleCalendar := c.cache.googleCalendar.filter (fun p => ¬ now - p.2.timestamp > c.cacheTTL)
      outlookCalendar := c.cache.outlookCalendar.filter (fun p => ¬ now - p.2.timestamp > c.cacheTTL) } }

/-- The integer counters reported by `getCacheStats` (`hitRate` is a decimal
rendering of `totalHits / totalRequests`, not separately modelled). -/
structure CacheStatsReport where
  gitlabHits : Nat
  gitlabMisses : Nat
  googleHits : Nat
  googleMisses : Nat
  outlookHits : Nat
  outlookMisses : Nat
  totalHits : Nat
  totalRequests : Nat
deriving DecidableEq, Repr

def getCacheStats (c : ActivityCache) : CacheStatsReport :=
  let s := c.cacheStats
  let total := s.gitlabHits + s.gitlabMisses + s.googleHits + s.googleMisses +
    s.outlookHits + s.outlookMisses
  let hits := s.gitlabHits + s.googleHits + s.outlookHits
  { gitlabHits := s.gitlabHits, gitlabMisses := s.gitlabMisses,
    googleHits := s.googleHits, googleMisses := s.googleMisses,
    outlookHits := s.outlookHits, outlookMisses := s.outlookMisses,
    totalHits := hits, totalRequests := total }

/-! ## Fetch orchestration (src/unnamed/part_006)

Provider adapters are modelled as `String → Except Unit α` (one fallible call
per day key).  The cache instance is threaded explicitly; `now` is the capture
timestamp used both for expiry checks and for `set`. -/

/-- `fetchGitLabActivityWithCache(dateStr, forceRefresh)`: cache-checked fetch.
Returns `(activity, fromCache)` and the updated cache, or propagates the
adapter's rejection. -/
def fetchGitLabActivityWithCache (c : ActivityCache) (now off : Int)
    (gitlabFetch : String → Except Unit GitLabActivity)
    (dateStr : String) (forceRefresh : Bool) :
    Except Unit ((GitLabActivity × Bool) × ActivityCache) :=
  let date := localDateOf off dateStr
  let cachedStep := if !forceRefresh then getGitLabActivity c now date else (none, c)
  match cachedStep.1 with
  | some cached => .ok ((cached, true), cachedStep.2)
  | none =>
    match gitlabFetch dateStr with
    | .ok activity => .ok ((activity, false), setGitLabActivity cachedStep.2 now date activity)
    | .error e => .error e

/-- `fetchCalendarEventsWithCache`: priority policy Google-then-Outlook.  A
cache hit on either provider returns immediately with `fromCache = true`;
adapter errors are caught and leave `meetings` as it was. -/
def fetchCalendarEventsWithCache (c : ActivityCache) (now off : Int)
    (googleFetch outlookFetch : String → Except Unit (List CalendarEvent))
    (dateStr : String)
    (googleAuthenticated outlookAuthenticated forceRefresh : Bool) :
    (List CalendarEvent × Bool) × ActivityCache :=
  let date := localDateOf off dateStr
  let googleCached :=
    if googleAuthenticated && !forceRefresh then getGoogleCalendarEvents c now date
    else (none, c)
  match googleCached.1 with
  | some cached => ((cached, true), googleCached.2)
  | none =>
    let googleStep :=
      if googleAuthenticated then
        match googleFetch dateStr with
        | .ok evs => (evs, setGoogleCalendarEvents googleCached.2 now date evs)
        | .error _ => ([], googleCached.2)
      else ([], googleCached.2)
    if googleStep.1.length = 0 && outlookAuthenticated then
      let outlookCached :=
        if !forceRefresh then getOutlookCalendarEvents googleStep.2 now date
        else (none, googleStep.2)
      match outlookCached.1 with
      | some cached => ((cached, true), outlookCached.2)
      | none =>
        match outlookFetch dateStr with
        | .ok evs => ((evs, false), setOutlookCalendarEvents outlookCached.2 now date evs)
        | .error _ => ((googleStep.1, false), outlookCached.2)
    else ((googleStep.1, false), googleStep.2)

/-- Outcome of one task in `Promise.allSettled`. -/
inductive SettledResult (α : Type)
  | fulfilled (value : α)
  | rejected
deriving DecidableEq, Repr

def mergeGitActivities (gitlabActivity githubActivity : GitLabActivity) : GitLabActivity :=
  { date := gitlabActivity.date
    commits := gitlabActivity.commits ++ githubActivity.commits
    mergeRequests := gitlabActivity.mergeRequests ++ githubActivity.mergeRequests
    issues := gitlabActivity.issues ++ githubActivity.issues }

structure CacheInfo where
  gitlab : Bool
  github : Bool
  calendar : Bool
deriving DecidableEq, Repr, Inhabited

def emptyGitActivity (date : Int) : GitLabActivity :=
  { date := date, commits := [], mergeRequests := [], issues := [] }

/-- The result-extraction and merge part of `fetchDayActivityParallel` (after
`Promise.allSettled` resolves): a rejected or absent provider contributes an
empty payload; the day record is always built. -/
def settleDayActivity (date : Int)
    (gitlabResult githubResult : SettledResult (Option (GitLabActivity × Bool)))
    (calendarResult : SettledResult (List CalendarEvent × Bool)) :
    DayActivity × CacheInfo :=
  let gitlabPart :=
    match gitlabResult with
    | .fulfilled (some v) => v
    | .fulfilled none => (emptyGitActivity date, false)
    | .rejected => (emptyGitActivity date, false)
  let githubPart :=
    match githubResult with
    | .fulfilled (some v) => v
    | .fulfilled none => (emptyGitActivity date, false)
    | .rejected => (emptyGitActivity date, false)
  let calendarPart :=
    match calendarResult with
    | .fulfilled v => v
    | .rejected => ([], false)
  let mergedActivity := mergeGitActivities gitlabPart.1 githubPart.1
  ({ date := date, meetings := calendarPart.1, gitlabActivity := mergedActivity,
     description := "" },
   { gitlab := gitlabPart.2, github := githubPart.2, calendar := calendarPart.2 })

/-- `fetchDayActivityParallel` for one day, run against an empty cache (a
fresh orchestration pass): under the cooperative scheduling every task's cache
lookup happens before any task's write, so with an empty initial store every
lookup misses and each settled task outcome is exactly the provider adapter's
outcome for that day. -/
def fetchDayActivityParallel (now ttl off : Int)
    (gitlabFetch githubFetch : String → Except Unit GitLabActivity)
    (googleFetch outlookFetch : String → Except Unit (List CalendarEvent))
    (gitlabAuthenticated githubAuthenticated googleAuthenticated outlookAuthenticated
      forceRefresh : Bool)
    (dateStr : String) : DayActivity × CacheInfo :=
  let date := localDateOf off dateStr
  let gitlabResult : SettledResult (Option (GitLabActivity × Bool)) :=
    if gitlabAuthenticated then
      match fetchGitLabActivityWithCache (emptyActivityCache ttl) now off gitlabFetch
          dateStr forceRefresh with
      | .ok v => .fulfilled (some v.1)
      | .error _ => .rejected
    else .fulfilled none
  let githubResult : SettledResult (Option (GitLabActivity × Bool)) :=
    if githubAuthenticated then
      match fetchGitLabActivityWithCache (emptyActivityCache ttl) now off githubFetch
          dateStr forceRefresh with
      | .ok v => .fulfilled (some v.1)
      | .error _ => .rejected
    else .fulfilled none
  let calendarResult : SettledResult (List CalendarEvent × Bool) :=
    .fulfilled (fetchCalendarEventsWithCache (emptyActivityCache ttl) now off googleFetch
      outlookFetch dateStr googleAuthenticated outlookAuthenticated forceRefresh).1
  settleDayActivity date gitlabResult githubResult calendarResult

/-- `fetchMultipleDaysParallel`: one day task per requested day, results in
input order (`Promise.all` preserves ordering).  Day values arrive here
already converted to their local `YYYY-MM-DD` keys. -/
def fetchMultipleDaysParallel (now ttl off : Int)
    (gitlabFetch githubFetch : String → Except Unit GitLabActivity)
    (googleFetch outlookFetch : String → Except Unit (List CalendarEvent))
    (gitlabAuthenticated githubAuthenticated googleAuthenticated outlookAuthenticated
      forceRefresh : Bool)
    (dates : List String) : List (DayActivity × CacheInfo) :=
  dates.map (fetchDayActivityParallel now ttl off gitlabFetch githubFetch googleFetch
    outlookFetch gitlabAuthenticated githubAuthenticated googleAuthenticated
    outlookAuthenticated forceRefresh)

/-! ## Concrete fixtures and counterexample inputs -/

/-- Concrete calendar event for the C2 counterexample. -/
def calCexEvent : CalendarEvent :=
  { title := "standup", start := 0, stop := 1, attendees := some 3 }

/-- Cache state for the C2 counterexample: a fresh zero-event Google entry and
a fresh one-event Outlook entry for the same day. -/
def calCexCache : ActivityCache :=
  { cache :=
      { gitlab := []
        googleCalendar := [("2024-03-10", { data := [], timestamp := 1000, source := "google_calendar" })]
        outlookCalendar := [("2024-03-10", { data := [calCexEvent], timestamp := 1000, source := "outlook_calendar" })] }
    cacheTTL := 3600000, cacheStats := zeroStats, persisted := emptyCacheData }

/-- The C7 counterexample run: a fresh GitLab fetch for day `2024-03-10` in a
UTC+1 process. -/
def gitlabCexRun : Except Unit ((GitLabActivity × Bool) × ActivityCache) :=
  fetchGitLabActivityWithCache (emptyActivityCache 3600000) 0 60
    (fun _ => .ok (emptyGitActivity 0)) "2024-03-10" false

def gitlabCexStore : List (String × CacheEntry GitLabActivity) :=
  match gitlabCexRun with
  | .ok v => v.2.cache.gitlab
  | .error _ => []

def emptyDayAt (t : Int) : DayActivity :=
  { date := t, meetings := [],
    gitlabActivity := { date := t, commits := [], mergeRequests := [], issues := [] },
    description := "" }

def plainCommit (s : String) : Commit :=
  { message := s, project := "P", branch := "main" }

def commitsDayAt (t : Int) (cs : List Commit) : DayActivity :=
  { date := t, meetings := [],
    gitlabActivity := { date := t, commits := cs, mergeRequests := [], issues := [] },
    description := "" }

def sourceDayAt (t : Int) (cs : List Commit) (ms : List MergeRequest) (iss : List Issue) :
    DayActivity :=
  { date := t, meetings := [],
    gitlabActivity := { date := t, commits := cs, mergeRequests := ms, issues := iss },
    description := "" }

/-- The canonical gap scenario: `G` empty days followed by one source day. -/
def gapConfig (G : Nat) (cs : List Commit) (ms : List MergeRequest) (iss : List Issue) :
    List DayActivity :=
  (List.range G).map (fun (m : Nat) => emptyDayAt (m : Int)) ++ [sourceDayAt (G : Int) cs ms iss]

def wAct : GitLabActivity :=
  { date := 0, commits := [plainCommit "w"], mergeRequests := [], issues := [] }

def wGhAct : GitLabActivity :=
  { date := 0, commits := [plainCommit "g"], mergeRequests := [], issues := [] }

def wGl : String → Except Unit GitLabActivity :=
  fun s => if s = "2024-03-11" then .error () else .ok wAct

def wGlOK : String → Except Unit GitLabActivity := fun _ => .ok wAct

def wGh : String → Except Unit GitLabActivity := fun _ => .ok wGhAct

def wGc : String → Except Unit (List CalendarEvent) := fun _ => .ok []

def wOc : String → Except Unit (List CalendarEvent) := fun _ => .error ()

instance : IsTotal DayActivity (fun a b => a.date ≤ b.date) :=
  ⟨fun a b => le_total a.date b.date⟩

instance : IsTrans DayActivity (fun a b => a.date ≤ b.date) :=
  ⟨fun _ _ _ h1 h2 => le_trans h1 h2⟩

/-! ## Helper lemmas: cache namespaces -/

theorem nsLookup_nsDelete_self {α : Type} (ns : List (String × CacheEntry α)) (key : String) :
    nsLookup (nsDelete ns key) key = none := by
  unfold nsLookup nsDelete
  induction ns with
  | nil => rfl
  | cons p t ih =>
    by_cases h : p.1 = key
    · simpa [h] using ih
    · simpa [h] using ih

theorem nsLookup_nsInsert_self {α : Type} (ns : List (String × CacheEntry α)) (key : String)
    (e : CacheEntry α) :
    nsLookup (nsInsert ns key e) key = some e := by
  induction ns with
  | nil => simp [nsInsert, nsLookup]
  | cons p t ih =>
    by_cases h : p.1 = key
    · simp [nsInsert, nsLookup, h]
    · simp only [nsInsert, if_neg h]
      unfold nsLookup at ih ⊢
      simpa [List.find?_cons, h] using ih

/-- C3: for every cache kind (gitlab, googleCalendar, outlookCalendar) and
every day key, a get returns a hit iff an entry exists for that key and
`now - entry.timestamp ≤ ttl`; a get performed exactly one tick past the TTL
reports a miss and deletes the stale entry from the store. -/
theorem cache_get_hit_iff_fresh (c : ActivityCache) (now dateMs : Int) :
    ((getGitLabActivity c now dateMs).1.isSome ↔
      ∃ e, nsLookup c.cache.gitlab (getDateKey dateMs) = some e ∧
        now - e.timestamp ≤ c.cacheTTL) ∧
    ((getGoogleCalendarEvents c now dateMs).1.isSome ↔
      ∃ e, nsLookup c.cache.googleCalendar (getDateKey dateMs) = some e ∧
        now - e.timestamp ≤ c.cacheTTL) ∧
    ((getOutlookCalendarEvents c now dateMs).1.isSome ↔
      ∃ e, nsLookup c.cache.outlookCalendar (getDateKey dateMs) = some e ∧
        now - e.timestamp ≤ c.cacheTTL) ∧
    (∀ e, nsLookup c.cache.gitlab (getDateKey dateMs) = some e →
      now - e.timestamp = c.cacheTTL + 1 →
      (getGitLabActivity c now dateMs).1 = none ∧
      nsLookup ((getGitLabActivity c now dateMs).2.cache.gitlab) (getDateKey dateMs) = none) ∧
    (∀ e, nsLookup c.cache.googleCalendar (getDateKey dateMs) = some e →
      now - e.timestamp = c.cacheTTL + 1 →
      (getGoogleCalendarEvents c now dateMs).1 = none ∧
      nsLookup ((getGoogleCalendarEvents c now dateMs).2.cache.googleCalendar)
        (getDateKey dateMs) = none) ∧
    (∀ e, nsLookup c.cache.outlookCalendar (getDateKey dateMs) = some e →
      now - e.timestamp = c.cacheTTL + 1 →
      (getOutlookCalendarEvents c now dateMs).1 = none ∧
      nsLookup ((getOutlookCalendarEvents c now dateMs).2.cache.outlookCalendar)
        (getDateKey dateMs) = none) := by
  refine ⟨?_, ?_, ?_, ?_, ?_, ?_⟩
  · cases hl : nsLookup c.cache.gitlab (getDateKey dateMs) with
    | none => simp [getGitLabActivity, hl]
    | some e =>
      by_cases hexp : isExpired c now e.timestamp
      · have h2 : now - e.timestamp > c.cacheTTL := by
          simpa [isExpired, decide_eq_true_eq] using hexp
        simp only [getGitLabActivity, hl, if_pos hexp]
        simp only [Option.isSome_none, Bool.false_eq_true, false_iff]
        rintro ⟨e2, he2, hle⟩
        cases he2
        omega
      · have h2 : ¬ now - e.timestamp > c.cacheTTL := by
          simpa [isExpired, decide_eq_true_eq] using hexp
        simp only [getGitLabActivity, hl, if_neg hexp]
        simp only [Option.isSome_some, true_iff]
        exact ⟨e, rfl, by omega⟩
  · cases hl : nsLookup c.cache.googleCalendar (getDateKey dateMs) with
    | none => simp [getGoogleCalendarEvents, hl]
    | some e =>
      by_cases hexp : isExpired c now e.timestamp
      · have h2 : now - e.timestamp > c.cacheTTL := by
          simpa [isExpired, decide_eq_true_eq] using hexp
        simp only [getGoogleCalendarEvents, hl, if_pos hexp]
        simp only [Option.isSome_none, Bool.false_eq_true, false_iff]
        rintro ⟨e2, he2, hle⟩
        cases he2
        omega
      · have h2 : ¬ now - e.timestamp > c.cacheTTL := by
          simpa [isExpired, decide_eq_true_eq] using hexp
        simp only [getGoogleCalendarEvents, hl, if_neg hexp]
        simp only [Option.isSome_some, true_iff]
        exact ⟨e, rfl, by omega⟩
  · cases hl : nsLookup c.cache.outlookCalendar (getDateKey dateMs) with
    | none => simp [getOutlookCalendarEvents, hl]
    | some e =>
      by_cases hexp : isExpired c now e.timestamp
      · have h2 : now - e.timestamp > c.cacheTTL := by
          simpa [isExpired, decide_eq_true_eq] using hexp
        simp only [getOutlookCalendarEvents, hl, if_pos hexp]
        simp only [Option.isSome_none, Bool.false_eq_true, false_iff]
        rintro ⟨e2, he2, hle⟩
        cases he2
        omega
      · have h2 : ¬ now - e.timestamp > c.cacheTTL := by
          simpa [isExpired, decide_eq_true_eq] using hexp
        simp only [getOutlookCalendarEvents, hl, if_neg hexp]
        simp only [Option.isSome_some, true_iff]
        exact ⟨e, rfl, by omega⟩
  · intro e hl htick
    have hexp : isExpired c now e.timestamp := by
      simp only [isExpired, decide_eq_true_eq]; omega
    simp only [getGitLabActivity, hl, if_pos hexp]
    exact ⟨trivial, nsLookup_nsDelete_self _ _⟩
  · intro e hl htick
    have hexp : isExpired c now e.timestamp := by
      simp only [isExpired, decide_eq_true_eq]; omega
    simp only [getGoogleCalendarEvents, hl, if_pos hexp]
    exact ⟨trivial, nsLookup_nsDelete_self _ _⟩
  · intro e hl htick
    have hexp : isExpired c now e.timestamp := by
      simp only [isExpired, decide_eq_true_eq]; omega
    simp only [getOutlookCalendarEvents, hl, if_pos hexp]
    exact ⟨trivial, nsLookup_nsDelete_self _ _⟩

/-- C10: `clearAll` empties every namespace and resets all six hit/miss
counters, while `clearGitLab`, `clearCalendars` and `clearExpired` remove only
their targeted entries and persist the store, leaving every counter unchanged,
so `stats()` still reflects all gets made before a scoped clear. -/
theorem cache_clear_scopes_and_stats (c : ActivityCache) (now : Int) :
    (clearAll c).cache = emptyCacheData ∧
    (clearAll c).cacheStats = zeroStats ∧
    (clearAll c).persisted = emptyCacheData ∧
    (clearGitLab c).cache.gitlab = [] ∧
    (clearGitLab c).cache.googleCalendar = c.cache.googleCalendar ∧
    (clearGitLab c).cache.outlookCalendar = c.cache.outlookCalendar ∧
    (clearGitLab c).cacheStats = c.cacheStats ∧
    (clearGitLab c).persisted = (clearGitLab c).cache ∧
    getCacheStats (clearGitLab c) = getCacheStats c ∧
    (clearCalendars c).cache.googleCalendar = [] ∧
    (clearCalendars c).cache.outlookCalendar = [] ∧
    (clearCalendars c).cache.gitlab = c.cache.gitlab ∧
    (clearCalendars c).cacheStats = c.cacheStats ∧
    (clearCalendars c).persisted = (clearCalendars c).cache ∧
    getCacheStats (clearCalendars c) = getCacheStats c ∧
    (clearExpired c now).cache.gitlab
      = c.cache.gitlab.filter (fun p => now - p.2.timestamp ≤ c.cacheTTL) ∧
    (clearExpired c now).cache.googleCalendar
      = c.cache.googleCalendar.filter (fun p => now - p.2.timestamp ≤ c.cacheTTL) ∧
    (clearExpired c now).cache.outlookCalendar
      = c.cache.outlookCalendar.filter (fun p => now - p.2.timestamp ≤ c.cacheTTL) ∧
    (clearExpired c now).cacheStats = c.cacheStats ∧
    (clearExpired c now).persisted = (clearExpired c now).cache ∧
    getCacheStats (clearExpired c now) = getCacheStats c := by
  refine ⟨rfl, rfl, rfl, rfl, rfl, rfl, rfl, rfl, rfl, rfl, rfl, rfl, rfl, rfl, rfl,
    ?_, ?_, ?_, rfl, rfl, rfl⟩ <;>
  · simp only [clearExpired, save]
    exact List.filter_congr (fun p _ => by
      simp only [decide_eq_decide]
      omega)

/-! ## Helper lemmas: cache statistics -/

theorem setGoogleCalendarEvents_cacheStats (c : ActivityCache) (now d : Int) (evs : List CalendarEvent) :
    (setGoogleCalendarEvents c now d evs).cacheStats = c.cacheStats := rfl

theorem setOutlookCalendarEvents_cacheStats (c : ActivityCache) (now d : Int) (evs : List CalendarEvent) :
    (setOutlookCalendarEvents c now d evs).cacheStats = c.cacheStats := rfl

theorem getGoogleCalendarEvents_outlookHits (c : ActivityCache) (now d : Int) :
    ((getGoogleCalendarEvents c now d).2).cacheStats.outlookHits = c.cacheStats.outlookHits := by
  cases hl : nsLookup c.cache.googleCalendar (getDateKey d) with
  | none => simp [getGoogleCalendarEvents, hl]
  | some e =>
    by_cases hexp : isExpired c now e.timestamp <;> simp [getGoogleCalendarEvents, hl, hexp]

theorem getGoogleCalendarEvents_outlookMisses (c : ActivityCache) (now d : Int) :
    ((getGoogleCalendarEvents c now d).2).cacheStats.outlookMisses = c.cacheStats.outlookMisses := by
  cases hl : nsLookup c.cache.googleCalendar (getDateKey d) with
  | none => simp [getGoogleCalendarEvents, hl]
  | some e =>
    by_cases hexp : isExpired c now e.timestamp <;> simp [getGoogleCalendarEvents, hl, hexp]

theorem getOutlookCalendarEvents_stats_sum (c : ActivityCache) (now d : Int) :
    ((getOutlookCalendarEvents c now d).2).cacheStats.outlookHits
      + ((getOutlookCalendarEvents c now d).2).cacheStats.outlookMisses
      = c.cacheStats.outlookHits + c.cacheStats.outlookMisses + 1 := by
  cases hl : nsLookup c.cache.outlookCalendar (getDateKey d) with
  | none => simp [getOutlookCalendarEvents, hl]; omega
  | some e =>
    by_cases hexp : isExpired c now e.timestamp <;>
      simp [getOutlookCalendarEvents, hl, hexp] <;> omega

/-- C2: corrected.  With the primary (Google) provider enabled and no
forceRefresh, the secondary (Outlook) cache/fetch is attempted iff the primary
cache lookup misses AND the fresh primary fetch yields zero events or errors.
A primary cache hit returns immediately — even when the cached event list is
empty — so a zero-event primary result served from cache does NOT lead to the
secondary attempt.  "Attempted" is observable as the outlook hit+miss counter
increasing by one. -/
theorem fetchCalendar_secondary_iff_fresh_zero (c : ActivityCache) (now off : Int)
    (googleFetch outlookFetch : String → Except Unit (List CalendarEvent))
    (dateStr : String) (outlookAuthenticated : Bool) :
    ((fetchCalendarEventsWithCache c now off googleFetch outlookFetch dateStr true
        outlookAuthenticated false).2.cacheStats.outlookHits
      + (fetchCalendarEventsWithCache c now off googleFetch outlookFetch dateStr true
        outlookAuthenticated false).2.cacheStats.outlookMisses
      = c.cacheStats.outlookHits + c.cacheStats.outlookMisses + 1)
    ↔ (outlookAuthenticated = true ∧
       (getGoogleCalendarEvents c now (localDateOf off dateStr)).1 = none ∧
       (googleFetch dateStr = .ok [] ∨ googleFetch dateStr = .error ())) := by
  rcases hG : getGoogleCalendarEvents c now (localDateOf off dateStr) with ⟨g1, c1⟩
  have hh : c1.cacheStats.outlookHits = c.cacheStats.outlookHits := by
    have h := getGoogleCalendarEvents_outlookHits c now (localDateOf off dateStr)
    rw [hG] at h; exact h
  have hm : c1.cacheStats.outlookMisses = c.cacheStats.outlookMisses := by
    have h := getGoogleCalendarEvents_outlookMisses c now (localDateOf off dateStr)
    rw [hG] at h; exact h
  cases g1 with
  | some v =>
    refine iff_of_false ?_ ?_
    · simp [fetchCalendarEventsWithCache, hG]
      omega
    · rintro ⟨-, h2, -⟩
      simp at h2
  | none =>
    cases hgf : googleFetch dateStr with
    | ok evs =>
      cases evs with
      | cons e es =>
        refine iff_of_false ?_ ?_
        · simp [fetchCalendarEventsWithCache, hG, hgf, setGoogleCalendarEvents_cacheStats]
          omega
        · rintro ⟨-, -, h3 | h3⟩ <;> simp at h3
      | nil =>
        cases outlookAuthenticated with
        | false =>
          refine iff_of_false ?_ ?_
          · simp [fetchCalendarEventsWithCache, hG, hgf, setGoogleCalendarEvents_cacheStats]
            omega
          · rintro ⟨h1, -, -⟩; cases h1
        | true =>
          rcases hO : getOutlookCalendarEvents
              (setGoogleCalendarEvents c1 now (localDateOf off dateStr) []) now
              (localDateOf off dateStr) with ⟨o1, c2⟩
          have hsum : c2.cacheStats.outlookHits + c2.cacheStats.outlookMisses
              = c.cacheStats.outlookHits + c.cacheStats.outlookMisses + 1 := by
            have h := getOutlookCalendarEvents_stats_sum
              (setGoogleCalendarEvents c1 now (localDateOf off dateStr) []) now
              (localDateOf off dateStr)
            rw [hO, setGoogleCalendarEvents_cacheStats] at h
            simp at h
            omega
          refine iff_of_true ?_ ⟨rfl, rfl, Or.inl rfl⟩
          cases o1 with
          | some w =>
            simp [fetchCalendarEventsWithCache, hG, hgf, hO]
            omega
          | none =>
            cases hof : outlookFetch dateStr with
            | ok evs2 =>
              simp [fetchCalendarEventsWithCache, hG, hgf, hO, hof,
                setOutlookCalendarEvents_cacheStats]
              omega
            | error e2 =>
              simp [fetchCalendarEventsWithCache, hG, hgf, hO, hof]
              omega
    | error e1 =>
      cases e1
      cases outlookAuthenticated with
      | false =>
        refine iff_of_false ?_ ?_
        · simp [fetchCalendarEventsWithCache, hG, hgf]
          omega
        · rintro ⟨h1, -, -⟩; cases h1
      | true =>
        rcases hO : getOutlookCalendarEvents c1 now (localDateOf off dateStr) with ⟨o1, c2⟩
        have hsum : c2.cacheStats.outlookHits + c2.cacheStats.outlookMisses
            = c.cacheStats.outlookHits + c.cacheStats.outlookMisses + 1 := by
          have h := getOutlookCalendarEvents_stats_sum c1 now (localDateOf off dateStr)
          rw [hO] at h
          simp at h
          omega
        refine iff_of_true ?_ ⟨rfl, rfl, Or.inr rfl⟩
        cases o1 with
        | some w =>
          simp [fetchCalendarEventsWithCache, hG, hgf, hO]
          omega
        | none =>
          cases hof : outlookFetch dateStr with
          | ok evs2 =>
            simp [fetchCalendarEventsWithCache, hG, hgf, hO, hof,
              setOutlookCalendarEvents_cacheStats]
            omega
          | error e2 =>
            simp [fetchCalendarEventsWithCache, hG, hgf, hO, hof]
            omega

/-- C2, counterexample: the primary (Google) result contains zero events and is
served from cache; the claim says this leads to the secondary (Outlook)
attempt, but the call returns `([], fromCache := true)` immediately and never
consults the Outlook cache (its hit/miss counters stay 0) even though a fresh
one-event Outlook entry exists for the day. -/
theorem fetchCalendar_cachedZero_skips_secondary_cex :
    (fetchCalendarEventsWithCache calCexCache 1000 0 (fun _ => .ok [calCexEvent])
        (fun _ => .ok [calCexEvent]) "2024-03-10" true true false).1 = ([], true) ∧
    (fetchCalendarEventsWithCache calCexCache 1000 0 (fun _ => .ok [calCexEvent])
        (fun _ => .ok [calCexEvent]) "2024-03-10" true true false).2.cacheStats.outlookHits = 0 ∧
    (fetchCalendarEventsWithCache calCexCache 1000 0 (fun _ => .ok [calCexEvent])
        (fun _ => .ok [calCexEvent]) "2024-03-10" true true false).2.cacheStats.outlookMisses = 0 ∧
    nsLookup calCexCache.cache.outlookCalendar "2024-03-10"
      = some { data := [calCexEvent], timestamp := 1000, source := "outlook_calendar" } := by
  refine ⟨?_, ?_, ?_, ?_⟩ <;> decide

/-- After a `set`, an immediate `get` for the same date is a hit returning the
stored payload (the two compute the same key). -/
theorem setGitLab_then_get (c : ActivityCache) (now dateMs : Int) (a : GitLabActivity)
    (httl : 0 ≤ c.cacheTTL) :
    (getGitLabActivity (setGitLabActivity c now dateMs a) now dateMs).1 = some a := by
  have hkey : nsLookup (setGitLabActivity c now dateMs a).cache.gitlab (getDateKey dateMs)
      = some { data := a, timestamp := now, source := "gitlab" } := by
    simp only [setGitLabActivity, save]
    exact nsLookup_nsInsert_self _ _ _
  have hexp : isExpired (setGitLabActivity c now dateMs a) now now = false := by
    simp only [isExpired, setGitLabActivity, save, decide_eq_false_iff_not]
    omega
  simp only [getGitLabActivity, hkey, hexp]
  simp

/-- C7: corrected.  `getDateKey` renders the UTC calendar day of the parsed
local-midnight instant, so the key equals the requested day `d` only for
non-positive offsets (at or west of UTC); for a positive (east) offset the key
is the previous calendar day.  Lookup and store still compute the same key, so
for every offset the payload cached for request-day `d` is the one returned as
a hit for `d`. -/
theorem getDateKey_offset_dependence (off : Int) (h1 : -1440 < off) (h2 : off < 1440)
    (c : ActivityCache) (now : Int) (a : GitLabActivity) (dateStr : String)
    (httl : 0 ≤ c.cacheTTL) :
    (getDateKey (mkDateLocal 2024 3 10 off)
        = if off ≤ 0 then "2024-03-10" else "2024-03-09") ∧
    (fetchGitLabActivityWithCache c now off (fun _ => .ok a) dateStr true
      = .ok ((a, false), setGitLabActivity c now (localDateOf off dateStr) a)) ∧
    (∀ v, fetchGitLabActivityWithCache c now off (fun _ => .ok a) dateStr true = .ok v →
      (getGitLabActivity v.2 now (localDateOf off dateStr)).1 = some a) := by
  refine ⟨?_, ?_, ?_⟩
  · have hday : daysFromCivil 2024 3 10 = 19792 := by decide
    have hfd : Int.fdiv (mkDateLocal 2024 3 10 off) 86400000
        = if off ≤ 0 then 19792 else 19791 := by
      rw [mkDateLocal, hday, Int.fdiv_eq_ediv _ (by norm_num)]
      split <;> omega
    rw [getDateKey, hfd]
    split <;> decide
  · simp [fetchGitLabActivityWithCache]
  · intro v hv
    simp [fetchGitLabActivityWithCache] at hv
    rw [← hv]
    exact setGitLab_then_get c now (localDateOf off dateStr) a httl

theorem getDateKey_offset_dependence_witness :
    (getDateKey (mkDateLocal 2024 3 10 (-300))
        = if (-300 : Int) ≤ 0 then "2024-03-10" else "2024-03-09") ∧
    (fetchGitLabActivityWithCache (emptyActivityCache 3600000) 5 (-300)
        (fun _ => .ok (emptyGitActivity 7)) "2024-03-10" true
      = .ok ((emptyGitActivity 7, false),
          setGitLabActivity (emptyActivityCache 3600000) 5
            (localDateOf (-300) "2024-03-10") (emptyGitActivity 7))) ∧
    (∀ v, fetchGitLabActivityWithCache (emptyActivityCache 3600000) 5 (-300)
        (fun _ => .ok (emptyGitActivity 7)) "2024-03-10" true = .ok v →
      (getGitLabActivity v.2 5 (localDateOf (-300) "2024-03-10")).1
        = some (emptyGitActivity 7)) :=
  getDateKey_offset_dependence (-300) (by decide) (by decide)
    (emptyActivityCache 3600000) 5 (emptyGitActivity 7) "2024-03-10" (by decide)

/-- C7, counterexample: in a process at offset +60 minutes (east of UTC), the
key used by `fetchGitLabActivityWithCache` for `d = "2024-03-10"` is
`"2024-03-09"`, not `d`: after the fetch the store holds no entry under
`"2024-03-10"` and one under `"2024-03-09"`. -/
theorem getDateKey_east_offset_cex :
    getDateKey (mkDateLocal 2024 3 10 60) = "2024-03-09" ∧
    "2024-03-09" ≠ "2024-03-10" ∧
    nsLookup gitlabCexStore "2024-03-10" = none ∧
    (nsLookup gitlabCexStore "2024-03-09").isSome = true := by
  refine ⟨?_, ?_, ?_, ?_⟩ <;> decide

theorem findNextActivityDayAux_spec (arr : Array DayActivity) (i j : Nat) :
    findNextActivityDayAux arr i = some j →
    i ≤ j ∧ ∃ hj : j < arr.size, hasAnyActivity arr[j] = true := by
  have key : ∀ (n i : Nat), arr.size - i = n → findNextActivityDayAux arr i = some j →
      i ≤ j ∧ ∃ hj : j < arr.size, hasAnyActivity arr[j] = true := by
    intro n
    induction n with
    | zero =>
      intro i hn h
      rw [findNextActivityDayAux] at h
      have hi : ¬ i < arr.size := by omega
      simp [hi] at h
    | succ n ih =>
      intro i hn h
      rw [findNextActivityDayAux] at h
      have hi : i < arr.size := by omega
      rw [dif_pos hi] at h
      by_cases hact : hasAnyActivity arr[i]
      · rw [if_pos hact] at h
        cases h
        exact ⟨le_refl _, hi, hact⟩
      · rw [if_neg hact] at h
        have := ih (i + 1) (by omega) h
        exact ⟨by omega, this.2⟩
  exact key _ i rfl

theorem findNextActivityDayAux_first (arr : Array DayActivity) (j : Nat)
    (hj : j < arr.size) (hact : hasAnyActivity arr[j] = true) :
    ∀ i, i ≤ j → (∀ m (hm : m < arr.size), i ≤ m → m < j → hasAnyActivity arr[m] = false) →
    findNextActivityDayAux arr i = some j := by
  have key : ∀ (n i : Nat), j - i = n → i ≤ j →
      (∀ m (hm : m < arr.size), i ≤ m → m < j → hasAnyActivity arr[m] = false) →
      findNextActivityDayAux arr i = some j := by
    intro n
    induction n with
    | zero =>
      intro i hn hij hmid
      have : i = j := by omega
      subst this
      rw [findNextActivityDayAux, dif_pos hj, if_pos hact]
    | succ n ih =>
      intro i hn hij hmid
      have hi : i < arr.size := by omega
      rw [findNextActivityDayAux, dif_pos hi]
      have hinact : hasAnyActivity arr[i] = false := hmid i hi (le_refl _) (by omega)
      rw [hinact]
      simp only [Bool.false_eq_true, if_false]
      exact ih (i + 1) (by omega) (by omega) (fun m hm h1 h2 => hmid m hm (by omega) h2)
  intro i hij hmid
  exact key _ i rfl hij hmid

theorem distributeItemsLoop_of_perDay_zero {α : Type} (getItems : GitLabActivity → List α)
    (setItems : GitLabActivity → List α → GitLabActivity) (tag : α → α)
    (source : List α) (activityIndex : Nat) (arr : Array DayActivity) (i idx : Nat) :
    distributeItemsLoop getItems setItems tag source 0 activityIndex arr i idx = (arr, idx) := by
  have key : ∀ (n : Nat) (i : Nat), activityIndex - i = n →
      distributeItemsLoop getItems setItems tag source 0 activityIndex arr i idx = (arr, idx) := by
    intro n
    induction n with
    | zero =>
      intro i hn
      rw [distributeItemsLoop]
      have h : ¬ i < activityIndex := by omega
      simp [h]
    | succ n ih =>
      intro i hn
      rw [distributeItemsLoop]
      have h : i < activityIndex := by omega
      simp only [if_pos h, Nat.zero_min, Nat.lt_irrefl, if_false]
      exact ih (i + 1) (by omega)
  exact key _ i rfl

theorem distributeItemsLoop_getElem_frame {α : Type} (getItems : GitLabActivity → List α)
    (setItems : GitLabActivity → List α → GitLabActivity) (tag : α → α)
    (source : List α) (perDay activityIndex : Nat) (arr : Array DayActivity) (i idx m : Nat)
    (hm : m < i ∨ activityIndex ≤ m) :
    (distributeItemsLoop getItems setItems tag source perDay activityIndex arr i idx).1[m]?
      = arr[m]? := by
  have key : ∀ (n : Nat) (arr : Array DayActivity) (i idx : Nat), activityIndex - i = n →
      (m < i ∨ activityIndex ≤ m) →
      (distributeItemsLoop getItems setItems tag source perDay activityIndex arr i idx).1[m]?
        = arr[m]? := by
    intro n
    induction n with
    | zero =>
      intro arr i idx hn hm
      rw [distributeItemsLoop]
      have h : ¬ i < activityIndex := by omega
      simp [h]
    | succ n ih =>
      intro arr i idx hn hm
      rw [distributeItemsLoop]
      have h : i < activityIndex := by omega
      by_cases h2 : 0 < min perDay (source.length - idx)
      · simp only [if_pos h, if_pos h2]
        rw [ih _ _ _ (by omega) (by omega)]
        rw [Array.getElem?_modify]
        have : ¬ i = m := by omega
        rw [if_neg this]
      · simp only [if_pos h, if_neg h2]
        exact ih _ _ _ (by omega) (by omega)
  exact key _ arr i idx rfl hm

theorem distributeItemsLoop_spec {α : Type} (getItems : GitLabActivity → List α)
    (setItems : GitLabActivity → List α → GitLabActivity) (tag : α → α)
    (source : List α) (perDay activityIndex : Nat) (hpos : 0 < perDay) :
    ∀ (n : Nat) (arr : Array DayActivity) (i idx : Nat), activityIndex - i = n →
      i ≤ activityIndex → idx + (activityIndex - i) * perDay ≤ source.length →
      (distributeItemsLoop getItems setItems tag source perDay activityIndex arr i idx).2
        = idx + (activityIndex - i) * perDay ∧
      (∀ m, i ≤ m → m < activityIndex →
        (distributeItemsLoop getItems setItems tag source perDay activityIndex arr i idx).1[m]?
          = (arr[m]?).map (fun day =>
            { day with gitlabActivity := (setItems day.gitlabActivity
                (getItems day.gitlabActivity ++
                  ((source.drop (idx + (m - i) * perDay)).take perDay).map tag)) })) := by
  intro n
  induction n with
  | zero =>
    intro arr i idx hn hle hsuff
    rw [distributeItemsLoop]
    have h : ¬ i < activityIndex := by omega
    rw [hn]
    simp only [if_neg h, Nat.zero_mul, Nat.add_zero]
    exact ⟨by trivial, fun m h1 h2 => absurd h2 (by omega)⟩
  | succ n ih =>
    intro arr i idx hn hle hsuff
    have h : i < activityIndex := by omega
    have hsplit : activityIndex - i = (activityIndex - (i + 1)) + 1 := by omega
    have hmul : (activityIndex - i) * perDay
        = (activityIndex - (i + 1)) * perDay + perDay := by
      rw [hsplit, Nat.add_mul, one_mul]
    have hmin : min perDay (source.length - idx) = perDay := by
      have hstep : perDay ≤ (activityIndex - i) * perDay :=
        Nat.le_mul_of_pos_left perDay (by omega)
      omega
    rw [distributeItemsLoop]
    simp only [if_pos h, hmin, if_pos hpos]
    have hrec := ih (arr.modify i (fun day =>
        { day with gitlabActivity :=
            setItems day.gitlabActivity (getItems day.gitlabActivity ++
              ((source.drop idx).take perDay).map tag) }))
      (i + 1) (idx + perDay) (by omega) (by omega) (by omega)
    refine ⟨by rw [hrec.1]; omega, ?_⟩
    intro m h1 h2
    by_cases hmi : m = i
    · subst hmi
      rw [distributeItemsLoop_getElem_frame _ _ _ _ _ _ _ _ _ _ (Or.inl (by omega))]
      rw [Array.getElem?_modify, if_pos rfl]
      simp
    · have hrec2 := hrec.2 m (by omega) h2
      rw [hrec2, Array.getElem?_modify, if_neg (by omega : ¬ i = m)]
      have harith : idx + perDay + (m - (i + 1)) * perDay = idx + (m - i) * perDay := by
        have h3 : m - i = (m - (i + 1)) + 1 := by omega
        rw [h3, Nat.add_mul, one_mul]
        omega
      rw [harith]

theorem distributeItemsLoop_date {α : Type} (getItems : GitLabActivity → List α)
    (setItems : GitLabActivity → List α → GitLabActivity) (tag : α → α)
    (source : List α) (perDay activityIndex : Nat) (arr : Array DayActivity) (i idx m : Nat) :
    ((distributeItemsLoop getItems setItems tag source perDay activityIndex arr i idx).1[m]?).map
        (fun day => (day.date, day.meetings))
      = (arr[m]?).map (fun day => (day.date, day.meetings)) := by
  have key : ∀ (n : Nat) (arr : Array DayActivity) (i idx : Nat), activityIndex - i = n →
      ((distributeItemsLoop getItems setItems tag source perDay activityIndex arr i idx).1[m]?).map
          (fun day => (day.date, day.meetings))
        = (arr[m]?).map (fun day => (day.date, day.meetings)) := by
    intro n
    induction n with
    | zero =>
      intro arr i idx hn
      rw [distributeItemsLoop]
      have h : ¬ i < activityIndex := by omega
      simp [h]
    | succ n ih =>
      intro arr i idx hn
      rw [distributeItemsLoop]
      have h : i < activityIndex := by omega
      by_cases h2 : 0 < min perDay (source.length - idx)
      · simp only [if_pos h, if_pos h2]
        rw [ih _ _ _ (by omega)]
        rw [Array.getElem?_modify]
        by_cases him : i = m
        · rw [if_pos him]
          cases arr[m]? with
          | none => rfl
          | some day => rfl
        · rw [if_neg him]
      · simp only [if_pos h, if_neg h2]
        exact ih _ _ _ (by omega)
  exact key _ arr i idx rfl

theorem distributeWorkAcrossGap_getElem_frame (arr : Array DayActivity)
    (gapStart activityIndex gapSize m : Nat) (hga : gapStart ≤ activityIndex)
    (hm : m < gapStart ∨ activityIndex < m) :
    (distributeWorkAcrossGap arr gapStart activityIndex gapSize)[m]? = arr[m]? := by
  rw [distributeWorkAcrossGap]
  have hframe : m < gapStart ∨ activityIndex ≤ m := by
    rcases hm with h | h
    · exact Or.inl h
    · exact Or.inr (by omega)
  have hne : ¬ activityIndex = m := by
    rcases hm with h | h
    · omega
    · omega
  split
  · rw [Array.getElem?_modify, if_neg hne]
    rw [distributeItemsLoop_getElem_frame _ _ _ _ _ _ _ _ _ _ hframe,
      distributeItemsLoop_getElem_frame _ _ _ _ _ _ _ _ _ _ hframe,
      distributeItemsLoop_getElem_frame _ _ _ _ _ _ _ _ _ _ hframe]
  · rw [distributeItemsLoop_getElem_frame _ _ _ _ _ _ _ _ _ _ hframe,
      distributeItemsLoop_getElem_frame _ _ _ _ _ _ _ _ _ _ hframe,
      distributeItemsLoop_getElem_frame _ _ _ _ _ _ _ _ _ _ hframe]

theorem distributeWorkAcrossGap_date (arr : Array DayActivity)
    (gapStart activityIndex gapSize m : Nat) :
    (((distributeWorkAcrossGap arr gapStart activityIndex gapSize)[m]?).map
        (fun day => (day.date, day.meetings)))
      = (arr[m]?).map (fun day => (day.date, day.meetings)) := by
  rw [distributeWorkAcrossGap]
  split
  · rw [Array.getElem?_modify]
    by_cases him : activityIndex = m
    · rw [if_pos him, Option.map_map]
      have hcomp : ((fun (day : DayActivity) => (day.date, day.meetings)) ∘
          (fun day => { day with gitlabActivity :=
            { day.gitlabActivity with
                commits := distributionNote gapSize :: day.gitlabActivity.commits } }))
          = fun (day : DayActivity) => (day.date, day.meetings) := rfl
      rw [hcomp]
      rw [distributeItemsLoop_date, distributeItemsLoop_date, distributeItemsLoop_date]
    · rw [if_neg him]
      rw [distributeItemsLoop_date, distributeItemsLoop_date, distributeItemsLoop_date]
  · rw [distributeItemsLoop_date, distributeItemsLoop_date, distributeItemsLoop_date]

theorem distributeLoop_all_active (arr : Array DayActivity) (i gapDays distributedDays : Nat)
    (hact : ∀ m (hm : m < arr.size), i ≤ m → hasAnyActivity arr[m] = true) :
    distributeLoop arr i gapDays distributedDays = (arr, gapDays, distributedDays) := by
  have key : ∀ (n i g d : Nat), arr.size - i = n →
      (∀ m (hm : m < arr.size), i ≤ m → hasAnyActivity arr[m] = true) →
      distributeLoop arr i g d = (arr, g, d) := by
    intro n
    induction n with
    | zero =>
      intro i g d hn h
      rw [distributeLoop]
      have hi : ¬ i < arr.size := by omega
      simp [hi]
    | succ n ih =>
      intro i g d hn h
      have hi : i < arr.size := by omega
      rw [distributeLoop, dif_pos hi, if_pos (h i hi (le_refl _))]
      exact ih (i + 1) g d (by omega) (fun m hm him => h m hm (by omega))
  exact key _ i gapDays distributedDays rfl hact

theorem distributeLoop_trailing (k : Nat) (arr : Array DayActivity)
    (i gapDays distributedDays : Nat)
    (hk : ∀ m (hm : m < arr.size), k ≤ m → hasAnyActivity arr[m] = false) :
    ∀ m, k ≤ m → (distributeLoop arr i gapDays distributedDays).1[m]? = arr[m]? := by
  have key : ∀ (n : Nat) (arr : Array DayActivity) (i g d : Nat), arr.size - i = n →
      (∀ m (hm : m < arr.size), k ≤ m → hasAnyActivity arr[m] = false) →
      ∀ m, k ≤ m → (distributeLoop arr i g d).1[m]? = arr[m]? := by
    intro n
    induction n with
    | zero =>
      intro arr i g d hn h m hm
      rw [distributeLoop]
      have hi : ¬ i < arr.size := by omega
      simp [hi]
    | succ n ih =>
      intro arr i g d hn h m hm
      have hi : i < arr.size := by omega
      rw [distributeLoop, dif_pos hi]
      by_cases hact : hasAnyActivity arr[i]
      · rw [if_pos hact]
        exact ih arr (i + 1) g d (by omega) h m hm
      · rw [if_neg hact]
        cases hfind : findNextActivityDay arr i with
        | none =>
          exact ih arr (i + 1) g d (by omega) h m hm
        | some j =>
          have hspec := findNextActivityDayAux_spec arr (i + 1) j hfind
          obtain ⟨hij, hjsz, hjact⟩ := hspec
          have hjk : j < k := by
            by_contra hge
            rw [h j hjsz (by omega)] at hjact
            exact Bool.false_ne_true hjact
          have hsize : (distributeWorkAcrossGap arr i j (j - i)).size = arr.size := by
            exact distributeWorkAcrossGap_size arr i j (j - i)
          have hframe : ∀ m2, k ≤ m2 →
              (distributeWorkAcrossGap arr i j (j - i))[m2]? = arr[m2]? := by
            intro m2 hm2
            exact distributeWorkAcrossGap_getElem_frame arr i j (j - i) m2 (by omega)
              (Or.inr (by omega))
          have hinact : ∀ m2 (hm2 : m2 < (distributeWorkAcrossGap arr i j (j - i)).size),
              k ≤ m2 → hasAnyActivity (distributeWorkAcrossGap arr i j (j - i))[m2] = false := by
            intro m2 hm2 hkm2
            have h1 := hframe m2 hkm2
            have hm2b : m2 < arr.size := by omega
            rw [Array.getElem?_eq_getElem hm2, Array.getElem?_eq_getElem hm2b] at h1
            have := Option.some.inj h1
            rw [this]
            exact h m2 hm2b hkm2
          rw [ih (distributeWorkAcrossGap arr i j (j - i)) (i + 1) _ _ (by omega) hinact m hm]
          exact hframe m hm
  exact key _ arr i gapDays distributedDays rfl hk

theorem distributeLoop_date (arr : Array DayActivity) (i gapDays distributedDays m : Nat) :
    ((distributeLoop arr i gapDays distributedDays).1[m]?).map
        (fun day => (day.date, day.meetings))
      = (arr[m]?).map (fun day => (day.date, day.meetings)) := by
  have key : ∀ (n : Nat) (arr : Array DayActivity) (i g d : Nat), arr.size - i = n →
      ((distributeLoop arr i g d).1[m]?).map (fun day => (day.date, day.meetings))
        = (arr[m]?).map (fun day => (day.date, day.meetings)) := by
    intro n
    induction n with
    | zero =>
      intro arr i g d hn
      rw [distributeLoop]
      have hi : ¬ i < arr.size := by omega
      simp [hi]
    | succ n ih =>
      intro arr i g d hn
      have hi : i < arr.size := by omega
      rw [distributeLoop, dif_pos hi]
      by_cases hact : hasAnyActivity arr[i]
      · rw [if_pos hact]
        exact ih arr (i + 1) g d (by omega)
      · rw [if_neg hact]
        cases hfind : findNextActivityDay arr i with
        | none => exact ih arr (i + 1) g d (by omega)
        | some j =>
          have hsize := distributeWorkAcrossGap_size arr i j (j - i)
          rw [ih (distributeWorkAcrossGap arr i j (j - i)) (i + 1) _ _ (by omega)]
          exact distributeWorkAcrossGap_date arr i j (j - i) m
  exact key _ arr i gapDays distributedDays rfl

theorem distributeWorkPhasesLoop_getElem_frame (phases : List String)
    (gapStart activityIndex : Nat) (arr : Array DayActivity) (i m : Nat)
    (hm : m < gapStart ∨ activityIndex ≤ m) :
    (distributeWorkPhasesLoop phases gapStart activityIndex arr i)[m]? = arr[m]? := by
  have key : ∀ (n : Nat) (arr : Array DayActivity) (i : Nat), phases.length - i = n →
      (distributeWorkPhasesLoop phases gapStart activityIndex arr i)[m]? = arr[m]? := by
    intro n
    induction n with
    | zero =>
      intro arr i hn
      rw [distributeWorkPhasesLoop]
      have h : ¬ (i < phases.length ∧ gapStart + i < activityIndex) := by omega
      simp [h]
    | succ n ih =>
      intro arr i hn
      rw [distributeWorkPhasesLoop]
      by_cases h : i < phases.length ∧ gapStart + i < activityIndex
      · rw [if_pos h]
        rw [ih _ _ (by omega)]
        rw [Array.getElem?_modify]
        have hne : ¬ gapStart + i = m := by
          rcases hm with h2 | h2
          · omega
          · omega
        rw [if_neg hne]
      · rw [if_neg h]
  exact key _ arr i rfl

theorem intelligentLoop_trailing (k : Nat) (arr : Array DayActivity)
    (i gapDays distributedDays : Nat)
    (hk : ∀ m (hm : m < arr.size), k ≤ m → hasAnyActivity arr[m] = false) :
    ∀ m, k ≤ m → (intelligentLoop arr i gapDays distributedDays).1[m]? = arr[m]? := by
  have key : ∀ (n : Nat) (arr : Array DayActivity) (i g d : Nat), arr.size - i = n →
      (∀ m (hm : m < arr.size), k ≤ m → hasAnyActivity arr[m] = false) →
      ∀ m, k ≤ m → (intelligentLoop arr i g d).1[m]? = arr[m]? := by
    intro n
    induction n with
    | zero =>
      intro arr i g d hn h m hm
      rw [intelligentLoop]
      have hi : ¬ i < arr.size := by omega
      simp [hi]
    | succ n ih =>
      intro arr i g d hn h m hm
      have hi : i < arr.size := by omega
      rw [intelligentLoop, dif_pos hi]
      by_cases hact : hasAnyActivity arr[i]
      · rw [if_pos hact]
        exact ih arr (i + 1) g d (by omega) h m hm
      · rw [if_neg hact]
        cases hfind : findNextActivityDay arr i with
        | none =>
          exact ih arr (i + 1) g d (by omega) h m hm
        | some j =>
          have hspec := findNextActivityDayAux_spec arr (i + 1) j hfind
          obtain ⟨hij, hjsz, hjact⟩ := hspec
          have hjk : j < k := by
            by_contra hge
            rw [h j hjsz (by omega)] at hjact
            exact Bool.false_ne_true hjact
          have hsize : (distributeWorkPhases arr i j (j - i) (arr.getD j default)).size
              = arr.size := distributeWorkPhases_size arr i j (j - i) (arr.getD j default)
          have hframe : ∀ m2, k ≤ m2 →
              (distributeWorkPhases arr i j (j - i) (arr.getD j default))[m2]? = arr[m2]? := by
            intro m2 hm2
            exact distributeWorkPhasesLoop_getElem_frame _ i j arr 0 m2 (Or.inr (by omega))
          have hinact : ∀ m2
              (hm2 : m2 < (distributeWorkPhases arr i j (j - i) (arr.getD j default)).size),
              k ≤ m2 →
              hasAnyActivity (distributeWorkPhases arr i j (j - i) (arr.getD j default))[m2]
                = false := by
            intro m2 hm2 hkm2
            have h1 := hframe m2 hkm2
            have hm2b : m2 < arr.size := by omega
            rw [Array.getElem?_eq_getElem hm2, Array.getElem?_eq_getElem hm2b] at h1
            have := Option.some.inj h1
            rw [this]
            exact h m2 hm2b hkm2
          rw [ih (distributeWorkPhases arr i j (j - i) (arr.getD j default)) (i + 1) _ _
            (by omega) hinact m hm]
          exact hframe m hm
  exact key _ arr i gapDays distributedDays rfl hk

theorem distributeLoop_size (arr : Array DayActivity) (i gapDays distributedDays : Nat) :
    (distributeLoop arr i gapDays distributedDays).1.size = arr.size := by
  have key : ∀ (n : Nat) (arr : Array DayActivity) (i g d : Nat), arr.size - i = n →
      (distributeLoop arr i g d).1.size = arr.size := by
    intro n
    induction n with
    | zero =>
      intro arr i g d hn
      rw [distributeLoop]
      have hi : ¬ i < arr.size := by omega
      simp [hi]
    | succ n ih =>
      intro arr i g d hn
      have hi : i < arr.size := by omega
      rw [distributeLoop, dif_pos hi]
      by_cases hact : hasAnyActivity arr[i]
      · rw [if_pos hact]
        exact ih arr (i + 1) g d (by omega)
      · rw [if_neg hact]
        cases hfind : findNextActivityDay arr i with
        | none => exact ih arr (i + 1) g d (by omega)
        | some j =>
          have hsize := distributeWorkAcrossGap_size arr i j (j - i)
          rw [ih (distributeWorkAcrossGap arr i j (j - i)) (i + 1) _ _ (by omega)]
          exact hsize
  exact key _ arr i gapDays distributedDays rfl

theorem intelligentLoop_size (arr : Array DayActivity) (i gapDays distributedDays : Nat) :
    (intelligentLoop arr i gapDays distributedDays).1.size = arr.size := by
  have key : ∀ (n : Nat) (arr : Array DayActivity) (i g d : Nat), arr.size - i = n →
      (intelligentLoop arr i g d).1.size = arr.size := by
    intro n
    induction n with
    | zero =>
      intro arr i g d hn
      rw [intelligentLoop]
      have hi : ¬ i < arr.size := by omega
      simp [hi]
    | succ n ih =>
      intro arr i g d hn
      have hi : i < arr.size := by omega
      rw [intelligentLoop, dif_pos hi]
      by_cases hact : hasAnyActivity arr[i]
      · rw [if_pos hact]
        exact ih arr (i + 1) g d (by omega)
      · rw [if_neg hact]
        cases hfind : findNextActivityDay arr i with
        | none => exact ih arr (i + 1) g d (by omega)
        | some j =>
          have hsize := distributeWorkPhases_size arr i j (j - i) (arr.getD j default)
          rw [ih _ (i + 1) _ _ (by omega)]
          exact hsize
  exact key _ arr i gapDays distributedDays rfl

theorem sortActivities_sorted (l : List DayActivity) :
    List.Sorted (fun a b : DayActivity => a.date ≤ b.date) (sortActivities l) :=
  List.sorted_insertionSort _ l

theorem sortActivities_eq_of_sorted {l : List DayActivity}
    (h : List.Sorted (fun a b : DayActivity => a.date ≤ b.date) l) : sortActivities l = l :=
  h.insertionSort_eq

theorem distributeActivities_output_sorted (xs : List DayActivity) :
    List.Sorted (fun a b : DayActivity => a.date ≤ b.date)
      (distributeActivities xs).activities := by
  have hsize : (distributeLoop (sortActivities xs).toArray 0 0 0).1.size
      = (sortActivities xs).toArray.size := distributeLoop_size _ 0 0 0
  have hsorted := sortActivities_sorted xs
  show List.Pairwise _ _
  rw [List.pairwise_iff_getElem]
  intro a b ha hb hab
  unfold distributeActivities at ha hb ⊢
  have hlen : ((distributeLoop (sortActivities xs).toArray 0 0 0).1.toList).length
      = (sortActivities xs).length := by
    rw [Array.length_toList, hsize, Array.size_toArray]
  have ha2 : a < (distributeLoop (sortActivities xs).toArray 0 0 0).1.size := by
    rw [Array.length_toList] at ha
    exact ha
  have hb2 : b < (distributeLoop (sortActivities xs).toArray 0 0 0).1.size := by
    rw [Array.length_toList] at hb
    exact hb
  rw [Array.getElem_toList ha2, Array.getElem_toList hb2]
  have hda := distributeLoop_date (sortActivities xs).toArray 0 0 0 a
  have hdb := distributeLoop_date (sortActivities xs).toArray 0 0 0 b
  have ha3 : a < (sortActivities xs).toArray.size := by omega
  have hb3 : b < (sortActivities xs).toArray.size := by omega
  rw [Array.getElem?_eq_getElem ha2, Array.getElem?_eq_getElem ha3] at hda
  rw [Array.getElem?_eq_getElem hb2, Array.getElem?_eq_getElem hb3] at hdb
  simp only [Option.map_some', Option.some.injEq, Prod.mk.injEq] at hda hdb
  have ha4 : a < (sortActivities xs).length := by
    rw [Array.size_toArray] at ha3
    exact ha3
  have hb4 : b < (sortActivities xs).length := by
    rw [Array.size_toArray] at hb3
    exact hb3
  have hsd := (List.pairwise_iff_getElem.mp hsorted) a b ha4 hb4 hab
  rw [hda.1, hdb.1]
  have hae : (sortActivities xs).toArray[a] = (sortActivities xs)[a] := List.getElem_toArray _
  have hbe : (sortActivities xs).toArray[b] = (sortActivities xs)[b] := List.getElem_toArray _
  rw [hae, hbe]
  exact hsd

/-- C8: running `distributeActivities` on an ascending-sorted sequence in which
every day has activity returns it unchanged with zero counters and an empty
message, and a second run on any output with no remaining empty days is a
no-op the second time. -/
theorem distributeActivities_noop_on_full :
    (∀ xs : List DayActivity,
      List.Sorted (fun a b : DayActivity => a.date ≤ b.date) xs →
      (∀ day ∈ xs, hasAnyActivity day = true) →
      distributeActivities xs
        = { activities := xs,
            distributionInfo := { daysWithGaps := 0, daysDistributed := 0, message := "" } }) ∧
    (∀ xs : List DayActivity,
      (∀ day ∈ (distributeActivities xs).activities, hasAnyActivity day = true) →
      distributeActivities ((distributeActivities xs).activities)
        = { activities := (distributeActivities xs).activities,
            distributionInfo := { daysWithGaps := 0, daysDistributed := 0, message := "" } }) := by
  have partA : ∀ xs : List DayActivity,
      List.Sorted (fun a b : DayActivity => a.date ≤ b.date) xs →
      (∀ day ∈ xs, hasAnyActivity day = true) →
      distributeActivities xs
        = { activities := xs,
            distributionInfo := { daysWithGaps := 0, daysDistributed := 0, message := "" } } := by
    intro xs hsort hall
    have hs : sortActivities xs = xs := sortActivities_eq_of_sorted hsort
    have hact : ∀ m (hm : m < (xs.toArray).size), 0 ≤ m →
        hasAnyActivity (xs.toArray)[m] = true := by
      intro m hm _
      rw [List.getElem_toArray]
      exact hall _ (List.getElem_mem _)
    unfold distributeActivities
    rw [hs]
    simp only [distributeLoop_all_active xs.toArray 0 0 0 hact]
    simp
  exact ⟨partA, fun xs hall => partA _ (distributeActivities_output_sorted xs) hall⟩

theorem distributeActivities_eq (xs : List DayActivity) :
    distributeActivities xs
      = { activities := (distributeLoop (sortActivities xs).toArray 0 0 0).1.toList,
          distributionInfo :=
            { daysWithGaps := (distributeLoop (sortActivities xs).toArray 0 0 0).2.1,
              daysDistributed := (distributeLoop (sortActivities xs).toArray 0 0 0).2.2,
              message := if 0 < (distributeLoop (sortActivities xs).toArray 0 0 0).2.2 then
                  distributedMessage (distributeLoop (sortActivities xs).toArray 0 0 0).2.1
                else "" } } := rfl

theorem distributeActivitiesIntelligent_eq (xs : List DayActivity) :
    distributeActivitiesIntelligent xs
      = { activities := (intelligentLoop (sortActivities xs).toArray 0 0 0).1.toList,
          distributionInfo :=
            { daysWithGaps := (intelligentLoop (sortActivities xs).toArray 0 0 0).2.1,
              daysDistributed := (intelligentLoop (sortActivities xs).toArray 0 0 0).2.2,
              message := if 0 < (intelligentLoop (sortActivities xs).toArray 0 0 0).2.2 then
                  phasedMessage (intelligentLoop (sortActivities xs).toArray 0 0 0).2.1
                else "" } } := rfl

/-- C9: a trailing run of empty days with no subsequent non-empty day is
returned still empty and unmodified, in both proportional
(`distributeActivities`) and phased (`distributeActivitiesIntelligent`)
mode. -/
theorem distribute_trailing_gap_untouched (ys zs : List DayActivity)
    (hsort : List.Sorted (fun a b : DayActivity => a.date ≤ b.date) (ys ++ zs))
    (hne : zs ≠ [])
    (hempty : ∀ day ∈ zs, hasAnyActivity day = false) :
    ((distributeActivities (ys ++ zs)).activities.drop ys.length = zs) ∧
    ((distributeActivitiesIntelligent (ys ++ zs)).activities.drop ys.length = zs) := by
  have hs : sortActivities (ys ++ zs) = ys ++ zs := sortActivities_eq_of_sorted hsort
  have hk : ∀ m (hm : m < ((ys ++ zs).toArray).size), ys.length ≤ m →
      hasAnyActivity ((ys ++ zs).toArray)[m] = false := by
    intro m hm hkm
    rw [List.getElem_toArray, List.getElem_append_right hkm]
    exact hempty _ (List.getElem_mem _)
  constructor
  · have htr := distributeLoop_trailing ys.length ((ys ++ zs).toArray) 0 0 0 hk
    rw [distributeActivities_eq, hs]
    have hsz : (distributeLoop ((ys ++ zs)).toArray 0 0 0).1.size
        = ((ys ++ zs)).toArray.size := distributeLoop_size _ 0 0 0
    apply List.ext_getElem
    · rw [List.length_drop, Array.length_toList, hsz, Array.size_toArray,
        List.length_append]
      omega
    · intro t h1 h2
      rw [List.getElem_drop]
      have hidx2 : ys.length + t < ((ys ++ zs)).toArray.size := by
        rw [Array.size_toArray, List.length_append]
        omega
      have hidx : ys.length + t < (distributeLoop ((ys ++ zs)).toArray 0 0 0).1.size := by
        rw [hsz]
        exact hidx2
      rw [Array.getElem_toList hidx]
      have htr2 := htr (ys.length + t) (by omega)
      rw [Array.getElem?_eq_getElem hidx, Array.getElem?_eq_getElem hidx2] at htr2
      have heq := Option.some.inj htr2
      rw [heq, List.getElem_toArray, List.getElem_append_right (by omega)]
      simp only [show ys.length + t - ys.length = t from by omega]
  · have htr := intelligentLoop_trailing ys.length ((ys ++ zs).toArray) 0 0 0 hk
    rw [distributeActivitiesIntelligent_eq, hs]
    have hsz : (intelligentLoop ((ys ++ zs)).toArray 0 0 0).1.size
        = ((ys ++ zs)).toArray.size := intelligentLoop_size _ 0 0 0
    apply List.ext_getElem
    · rw [List.length_drop, Array.length_toList, hsz, Array.size_toArray,
        List.length_append]
      omega
    · intro t h1 h2
      rw [List.getElem_drop]
      have hidx2 : ys.length + t < ((ys ++ zs)).toArray.size := by
        rw [Array.size_toArray, List.length_append]
        omega
      have hidx : ys.length + t < (intelligentLoop ((ys ++ zs)).toArray 0 0 0).1.size := by
        rw [hsz]
        exact hidx2
      rw [Array.getElem_toList hidx]
      have htr2 := htr (ys.length + t) (by omega)
      rw [Array.getElem?_eq_getElem hidx, Array.getElem?_eq_getElem hidx2] at htr2
      have heq := Option.some.inj htr2
      rw [heq, List.getElem_toArray, List.getElem_append_right (by omega)]
      simp only [show ys.length + t - ys.length = t from by omega]

theorem distributedMessage_ne_empty (gapDays : Nat) : distributedMessage gapDays ≠ "" := by
  intro h
  have hlen := congrArg String.length h
  rw [distributedMessage, String.length_append, String.length_append] at hlen
  have h6 : ("Note: ").length = 6 := rfl
  have h0 : ("" : String).length = 0 := rfl
  omega

theorem phasedMessage_ne_empty (gapDays : Nat) : phasedMessage gapDays ≠ "" := by
  intro h
  have hlen := congrArg String.length h
  rw [phasedMessage, String.length_append, String.length_append] at hlen
  have h6 : ("Note: ").length = 6 := rfl
  have h0 : ("" : String).length = 0 := rfl
  omega

/-- C6, counterexample: on `[empty day, day with one commit]` the per-day
share is zero, so no item is relocated and no synthetic entry is added -- the
activities come back unchanged -- yet the message is non-empty, contradicting
"empty iff no distribution occurred". -/
theorem distribution_message_without_relocation_cex :
    (distributeActivities [emptyDayAt 0, commitsDayAt 1 [plainCommit "a"]]).activities
      = [emptyDayAt 0, commitsDayAt 1 [plainCommit "a"]] ∧
    ¬ (distributeActivities [emptyDayAt 0, commitsDayAt 1 [plainCommit "a"]]).distributionInfo.message
      = "" := by
  constructor
  · simp [distributeActivities, sortActivities, List.insertionSort, List.orderedInsert,
      distributeLoop, findNextActivityDay, findNextActivityDayAux, hasAnyActivity,
      distributeWorkAcrossGap, distributeItemsLoop, emptyDayAt, commitsDayAt, plainCommit]
  · simp only [distributeActivities_eq]
    simp [sortActivities, List.insertionSort, List.orderedInsert,
      distributeLoop, findNextActivityDay, findNextActivityDayAux, hasAnyActivity,
      distributeWorkAcrossGap, distributeItemsLoop, emptyDayAt, commitsDayAt, plainCommit,
      distributedMessage_ne_empty]

/-- C5, counterexample: the scan advances one index at a time and does not
continue from the activity day `j`; on `[empty, empty, one commit]` nothing is
relocated (per-day share is zero), the still-empty second day is re-examined
as a fresh gap start, and the counters report 3 gap days and 2 distributions
for a single maximal run of 2 empty days. -/
theorem gap_rescan_counters_cex :
    (distributeActivities [emptyDayAt 0, emptyDayAt 1,
        commitsDayAt 2 [plainCommit "a"]]).distributionInfo.daysWithGaps = 3 ∧
    (distributeActivities [emptyDayAt 0, emptyDayAt 1,
        commitsDayAt 2 [plainCommit "a"]]).distributionInfo.daysDistributed = 2 ∧
    ([emptyDayAt 0, emptyDayAt 1, commitsDayAt 2 [plainCommit "a"]].filter
        (fun d => ¬ hasAnyActivity d)).length = 2 := by
  refine ⟨?_, ?_, ?_⟩ <;>
    simp [distributeActivities, sortActivities, List.insertionSort, List.orderedInsert,
      distributeLoop, findNextActivityDay, findNextActivityDayAux, hasAnyActivity,
      distributeWorkAcrossGap, distributeItemsLoop, emptyDayAt, commitsDayAt, plainCommit]

/-- C1, counterexample: for two empty days before a day with 3 commits the
output days hold 1, 1 and 4 commits; the source day keeps all 3 original
commits plus the marker, so relocated items do not leave the source day and
the claimed conservation 1 + 1 + (4 - 1) = 3 fails. -/
theorem gap_commits_not_conserved_cex :
    ((distributeActivities [emptyDayAt 0, emptyDayAt 1,
        commitsDayAt 2 [plainCommit "a", plainCommit "b", plainCommit "c"]]).activities.map
      (fun d => d.gitlabActivity.commits.length)) = [1, 1, 4] ∧
    ((distributeActivities [emptyDayAt 0, emptyDayAt 1,
        commitsDayAt 2 [plainCommit "a", plainCommit "b", plainCommit "c"]]).activities.getD 2
          default).gitlabActivity.commits.head? = some (distributionNote 2) ∧
    ¬ (1 + 1 + (4 - 1) = 3) := by
  refine ⟨?_, ?_, by decide⟩ <;>
    simp [distributeActivities, sortActivities, List.insertionSort, List.orderedInsert,
      distributeLoop, findNextActivityDay, findNextActivityDayAux, hasAnyActivity,
      distributeWorkAcrossGap, distributeItemsLoop, emptyDayAt, commitsDayAt, plainCommit,
      tagCommit, distributionNote]

/-- C6: corrected.  The summary message is empty iff `daysDistributed = 0`,
i.e. iff no empty day with a following activity day was found -- not iff no
item was relocated or synthetic entry added: `daysDistributed` is incremented
even when nothing is copied and no marker is written.  When non-empty the
message is the fixed one-liner naming the convention used ([Distributed]
resp. [Phase: X]). -/
theorem distribution_message_iff_distributed (xs : List DayActivity) :
    ((distributeActivities xs).distributionInfo.message = "" ↔
      (distributeActivities xs).distributionInfo.daysDistributed = 0) ∧
    ((distributeActivities xs).distributionInfo.message = "" ∨
      (distributeActivities xs).distributionInfo.message
        = distributedMessage (distributeActivities xs).distributionInfo.daysWithGaps) ∧
    ((distributeActivitiesIntelligent xs).distributionInfo.message = "" ↔
      (distributeActivitiesIntelligent xs).distributionInfo.daysDistributed = 0) ∧
    ((distributeActivitiesIntelligent xs).distributionInfo.message = "" ∨
      (distributeActivitiesIntelligent xs).distributionInfo.message
        = phasedMessage (distributeActivitiesIntelligent xs).distributionInfo.daysWithGaps) := by
  rw [distributeActivities_eq, distributeActivitiesIntelligent_eq]
  refine ⟨?_, ?_, ?_, ?_⟩
  · by_cases h : 0 < (distributeLoop (sortActivities xs).toArray 0 0 0).2.2
    · simp [h, distributedMessage_ne_empty]
      omega
    · simp [h]
      omega
  · by_cases h : 0 < (distributeLoop (sortActivities xs).toArray 0 0 0).2.2
    · simp [h]
    · simp [h]
  · by_cases h : 0 < (intelligentLoop (sortActivities xs).toArray 0 0 0).2.2
    · simp [h, phasedMessage_ne_empty]
      omega
    · simp [h]
      omega
  · by_cases h : 0 < (intelligentLoop (sortActivities xs).toArray 0 0 0).2.2
    · simp [h]
    · simp [h]

theorem distributeItemsLoop_run {α : Type} (getItems : GitLabActivity → List α)
    (setItems : GitLabActivity → List α → GitLabActivity) (tag : α → α)
    (hid : ∀ g, setItems g (getItems g) = g)
    (source : List α) (G : Nat) (arr : Array DayActivity) :
    (distributeItemsLoop getItems setItems tag source (source.length / (G + 1)) G arr 0 0).2
      = G * (source.length / (G + 1)) ∧
    (∀ m (hm : m < arr.size), m < G →
      (distributeItemsLoop getItems setItems tag source (source.length / (G + 1)) G arr 0 0).1[m]?
        = some { arr[m] with gitlabActivity := (setItems (arr[m]).gitlabActivity
            ((getItems (arr[m]).gitlabActivity) ++
              ((source.drop (m * (source.length / (G + 1)))).take
                (source.length / (G + 1))).map tag)) }) ∧
    (∀ m, G ≤ m →
      (distributeItemsLoop getItems setItems tag source (source.length / (G + 1)) G arr 0 0).1[m]?
        = arr[m]?) := by
  by_cases hp : source.length / (G + 1) = 0
  · rw [hp]
    rw [distributeItemsLoop_of_perDay_zero]
    refine ⟨by omega, ?_, fun m hm => rfl⟩
    intro m hm hmG
    rw [Array.getElem?_eq_getElem hm]
    congr 1
    rw [List.take_zero, List.map_nil, List.append_nil, hid]
  · have hpos : 0 < source.length / (G + 1) := Nat.pos_of_ne_zero hp
    have hdiv : (source.length / (G + 1)) * (G + 1) ≤ source.length :=
      Nat.div_mul_le_self source.length (G + 1)
    have hsuff : 0 + (G - 0) * (source.length / (G + 1)) ≤ source.length := by
      simp only [Nat.sub_zero, Nat.zero_add]
      have h1 : (G + 1) * (source.length / (G + 1))
          = G * (source.length / (G + 1)) + (source.length / (G + 1)) := by
        rw [Nat.succ_mul]
      have h2 : (source.length / (G + 1)) * (G + 1) = (G + 1) * (source.length / (G + 1)) :=
        Nat.mul_comm _ _
      omega
    have hspec := distributeItemsLoop_spec getItems setItems tag source
      (source.length / (G + 1)) G hpos (G - 0) arr 0 0 rfl (by omega) hsuff
    refine ⟨by rw [hspec.1]; simp only [Nat.sub_zero, Nat.zero_add], ?_, ?_⟩
    · intro m hm hmG
      rw [hspec.2 m (by omega) hmG]
      rw [Array.getElem?_eq_getElem hm]
      simp only [Option.map_some', Nat.zero_add, Nat.sub_zero]
    · intro m hmG
      exact distributeItemsLoop_getElem_frame _ _ _ _ _ _ _ _ _ _ (Or.inr hmG)

theorem distributeWorkAcrossGap_run (G : Nat) (arr : Array DayActivity) (src : DayActivity)
    (hG : G < arr.size) (hsrc : arr[G] = src) :
    ((0 < G * (src.gitlabActivity.commits.length / (G + 1))
      ∨ 0 < G * (src.gitlabActivity.mergeRequests.length / (G + 1))
      ∨ 0 < G * (src.gitlabActivity.issues.length / (G + 1))) →
      (distributeWorkAcrossGap arr 0 G G)[G]?
        = some { src with gitlabActivity :=
            { src.gitlabActivity with
                commits := distributionNote G :: src.gitlabActivity.commits } }) ∧
    (∀ m (hm : m < arr.size), m < G →
      (distributeWorkAcrossGap arr 0 G G)[m]?
        = some { arr[m] with gitlabActivity :=
            { date := (arr[m]).gitlabActivity.date
              commits := (arr[m]).gitlabActivity.commits ++
                ((src.gitlabActivity.commits.drop
                    (m * (src.gitlabActivity.commits.length / (G + 1)))).take
                  (src.gitlabActivity.commits.length / (G + 1))).map tagCommit
              mergeRequests := (arr[m]).gitlabActivity.mergeRequests ++
                ((src.gitlabActivity.mergeRequests.drop
                    (m * (src.gitlabActivity.mergeRequests.length / (G + 1)))).take
                  (src.gitlabActivity.mergeRequests.length / (G + 1))).map tagMergeRequest
              issues := (arr[m]).gitlabActivity.issues ++
                ((src.gitlabActivity.issues.drop
                    (m * (src.gitlabActivity.issues.length / (G + 1)))).take
                  (src.gitlabActivity.issues.length / (G + 1))).map tagIssue } }) := by
  have hgetD : arr.getD G default = src := by
    rw [Array.getD_eq_get?, Array.getElem?_eq_getElem hG, hsrc]
    rfl
  simp only [distributeWorkAcrossGap]
  rw [hgetD]
  obtain ⟨hC2, hCmid, hCfr⟩ := distributeItemsLoop_run (fun g => g.commits)
    (fun g l => { g with commits := l }) tagCommit (fun g => rfl)
    src.gitlabActivity.commits G arr
  set B := (distributeItemsLoop (fun g => g.commits) (fun g l => { g with commits := l })
    tagCommit src.gitlabActivity.commits (src.gitlabActivity.commits.length / (G + 1)) G
    arr 0 0).1 with hBdef
  have hsB : B.size = arr.size := by
    rw [hBdef]
    exact distributeItemsLoop_size _ _ _ _ _ _ _ _ _
  obtain ⟨hM2, hMmid, hMfr⟩ := distributeItemsLoop_run (fun g => g.mergeRequests)
    (fun g l => { g with mergeRequests := l }) tagMergeRequest (fun g => rfl)
    src.gitlabActivity.mergeRequests G B
  set C := (distributeItemsLoop (fun g => g.mergeRequests)
    (fun g l => { g with mergeRequests := l }) tagMergeRequest
    src.gitlabActivity.mergeRequests (src.gitlabActivity.mergeRequests.length / (G + 1)) G
    B 0 0).1 with hCdef
  have hsC : C.size = arr.size := by
    rw [hCdef, distributeItemsLoop_size]
    exact hsB
  obtain ⟨hI2, hImid, hIfr⟩ := distributeItemsLoop_run (fun g => g.issues)
    (fun g l => { g with issues := l }) tagIssue (fun g => rfl)
    src.gitlabActivity.issues G C
  set D := (distributeItemsLoop (fun g => g.issues) (fun g l => { g with issues := l })
    tagIssue src.gitlabActivity.issues (src.gitlabActivity.issues.length / (G + 1)) G
    C 0 0).1 with hDdef
  have hsD : D.size = arr.size := by
    rw [hDdef, distributeItemsLoop_size]
    exact hsC
  have hDG : D[G]? = arr[G]? := by
    rw [hDdef]
    rw [distributeItemsLoop_getElem_frame _ _ _ _ _ _ _ _ _ _ (Or.inr (le_refl G))]
    rw [hCdef]
    rw [distributeItemsLoop_getElem_frame _ _ _ _ _ _ _ _ _ _ (Or.inr (le_refl G))]
    rw [hBdef]
    rw [distributeItemsLoop_getElem_frame _ _ _ _ _ _ _ _ _ _ (Or.inr (le_refl G))]
  have hDmid : ∀ m (hm : m < arr.size), m < G →
      D[m]? = some { arr[m] with gitlabActivity :=
        { date := (arr[m]).gitlabActivity.date
          commits := (arr[m]).gitlabActivity.commits ++
            ((src.gitlabActivity.commits.drop
                (m * (src.gitlabActivity.commits.length / (G + 1)))).take
              (src.gitlabActivity.commits.length / (G + 1))).map tagCommit
          mergeRequests := (arr[m]).gitlabActivity.mergeRequests ++
            ((src.gitlabActivity.mergeRequests.drop
                (m * (src.gitlabActivity.mergeRequests.length / (G + 1)))).take
              (src.gitlabActivity.mergeRequests.length / (G + 1))).map tagMergeRequest
          issues := (arr[m]).gitlabActivity.issues ++
            ((src.gitlabActivity.issues.drop
                (m * (src.gitlabActivity.issues.length / (G + 1)))).take
              (src.gitlabActivity.issues.length / (G + 1))).map tagIssue } } := by
    intro m hm hmG
    have hmB : m < B.size := by omega
    have hmC : m < C.size := by omega
    have hBm := hCmid m hm hmG
    have hBv : B[m] = { arr[m] with gitlabActivity :=
        { (arr[m]).gitlabActivity with
            commits := (arr[m]).gitlabActivity.commits ++
              ((src.gitlabActivity.commits.drop
                  (m * (src.gitlabActivity.commits.length / (G + 1)))).take
                (src.gitlabActivity.commits.length / (G + 1))).map tagCommit } } := by
      have h2 := hBm
      rw [Array.getElem?_eq_getElem hmB] at h2
      exact Option.some.inj h2
    have hCm := hMmid m hmB hmG
    have hCv : C[m] = { B[m] with gitlabActivity :=
        { (B[m]).gitlabActivity with
            mergeRequests := (B[m]).gitlabActivity.mergeRequests ++
              ((src.gitlabActivity.mergeRequests.drop
                  (m * (src.gitlabActivity.mergeRequests.length / (G + 1)))).take
                (src.gitlabActivity.mergeRequests.length / (G + 1))).map tagMergeRequest } } := by
      have h2 := hCm
      rw [Array.getElem?_eq_getElem hmC] at h2
      exact Option.some.inj h2
    have hDm := hImid m hmC hmG
    rw [hDm, hCv, hBv]
  constructor
  · intro hOr
    have hcond : (decide (0 < (distributeItemsLoop (fun g => g.commits)
        (fun g l => { g with commits := l }) tagCommit src.gitlabActivity.commits
        (src.gitlabActivity.commits.length / (G + 1)) G arr 0 0).2)
        || decide (0 < (distributeItemsLoop (fun g => g.mergeRequests)
        (fun g l => { g with mergeRequests := l }) tagMergeRequest
        src.gitlabActivity.mergeRequests
        (src.gitlabActivity.mergeRequests.length / (G + 1)) G B 0 0).2)
        || decide (0 < (distributeItemsLoop (fun g => g.issues)
        (fun g l => { g with issues := l }) tagIssue src.gitlabActivity.issues
        (src.gitlabActivity.issues.length / (G + 1)) G C 0 0).2)) = true := by
      rw [hC2, hM2, hI2]
      rcases hOr with h | h | h <;> simp [h]
    rw [if_pos (by exact hcond)]
    rw [Array.getElem?_modify, if_pos rfl, hDG, Array.getElem?_eq_getElem hG, hsrc]
    rfl
  · intro m hm hmG
    split
    · rw [Array.getElem?_modify, if_neg (by omega : ¬ G = m)]
      exact hDmid m hm hmG
    · exact hDmid m hm hmG

theorem gapConfig_length (G : Nat) (cs : List Commit) (ms : List MergeRequest)
    (iss : List Issue) : (gapConfig G cs ms iss).length = G + 1 := by
  rw [gapConfig, List.length_append, List.length_map, List.length_range]
  rfl

theorem gapConfig_getElem? (G : Nat) (cs : List Commit) (ms : List MergeRequest)
    (iss : List Issue) (m : Nat) (hm : m ≤ G) :
    (gapConfig G cs ms iss)[m]?
      = some (if m < G then emptyDayAt m else sourceDayAt G cs ms iss) := by
  by_cases h : m < G
  · rw [if_pos h, gapConfig]
    rw [List.getElem?_append_left (by simpa using h)]
    rw [List.getElem?_map, List.getElem?_range h]
    rfl
  · rw [if_neg h]
    have hmG : m = G := by omega
    subst hmG
    rw [gapConfig]
    rw [List.getElem?_append_right (by simp)]
    simp

theorem gapConfig_getElem (G : Nat) (cs : List Commit) (ms : List MergeRequest)
    (iss : List Issue) (m : Nat) (hm : m < (gapConfig G cs ms iss).length) :
    (gapConfig G cs ms iss)[m]
      = if m < G then emptyDayAt m else sourceDayAt G cs ms iss := by
  have h1 := gapConfig_getElem? G cs ms iss m (by
    have := gapConfig_length G cs ms iss
    omega)
  rw [List.getElem?_eq_getElem hm] at h1
  exact Option.some.inj h1

theorem gapConfig_sorted (G : Nat) (cs : List Commit) (ms : List MergeRequest)
    (iss : List Issue) :
    List.Sorted (fun a b : DayActivity => a.date ≤ b.date) (gapConfig G cs ms iss) := by
  show List.Pairwise _ _
  rw [List.pairwise_iff_getElem]
  intro a b ha hb hab
  rw [gapConfig_getElem G cs ms iss a ha, gapConfig_getElem G cs ms iss b hb]
  have hbG : b ≤ G := by
    have := gapConfig_length G cs ms iss
    omega
  by_cases h1 : a < G <;> by_cases h2 : b < G <;>
    simp [h1, h2, emptyDayAt, sourceDayAt] <;> omega

theorem gapConfig_run (G : Nat) (hG : 1 ≤ G) (cs : List Commit) (ms : List MergeRequest)
    (iss : List Issue)
    (hbig : G + 1 ≤ cs.length ∨ G + 1 ≤ ms.length ∨ G + 1 ≤ iss.length) :
    distributeActivities (gapConfig G cs ms iss)
      = { activities :=
            (distributeWorkAcrossGap (gapConfig G cs ms iss).toArray 0 G G).toList,
          distributionInfo :=
            { daysWithGaps := G, daysDistributed := 1,
              message := distributedMessage G } } := by
  have hlen := gapConfig_length G cs ms iss
  have hszA : (gapConfig G cs ms iss).toArray.size = G + 1 := by
    rw [Array.size_toArray, hlen]
  have hA : ∀ m (hm : m < (gapConfig G cs ms iss).toArray.size),
      (gapConfig G cs ms iss).toArray[m]
        = if m < G then emptyDayAt m else sourceDayAt G cs ms iss := by
    intro m hm
    rw [List.getElem_toArray]
    exact gapConfig_getElem G cs ms iss m (by omega)
  have hA0 : (gapConfig G cs ms iss).toArray[0] = emptyDayAt ((0 : Nat) : Int) := by
    rw [hA 0 (by omega), if_pos (by omega)]
  have hAG : (gapConfig G cs ms iss).toArray[G] = sourceDayAt G cs ms iss := by
    rw [hA G (by omega), if_neg (by omega)]
  have hsrcAct : hasAnyActivity (sourceDayAt G cs ms iss) = true := by
    rcases hbig with h | h | h <;>
      · simp [hasAnyActivity, sourceDayAt]
        omega
  -- the run of distributeWorkAcrossGap
  obtain ⟨hnote, hmid⟩ := distributeWorkAcrossGap_run G (gapConfig G cs ms iss).toArray
    (sourceDayAt G cs ms iss) (by omega) hAG
  have harr1sz : (distributeWorkAcrossGap (gapConfig G cs ms iss).toArray 0 G G).size
      = G + 1 := by
    rw [distributeWorkAcrossGap_size]
    exact hszA
  -- per-day quotas
  have hpos : 0 < cs.length / (G + 1) ∨ 0 < ms.length / (G + 1) ∨ 0 < iss.length / (G + 1) := by
    rcases hbig with h | h | h
    · exact Or.inl (Nat.one_le_div_iff (by omega) |>.mpr h)
    · exact Or.inr (Or.inl (Nat.one_le_div_iff (by omega) |>.mpr h))
    · exact Or.inr (Or.inr (Nat.one_le_div_iff (by omega) |>.mpr h))
  have hcondOr : 0 < G * ((sourceDayAt G cs ms iss).gitlabActivity.commits.length / (G + 1))
      ∨ 0 < G * ((sourceDayAt G cs ms iss).gitlabActivity.mergeRequests.length / (G + 1))
      ∨ 0 < G * ((sourceDayAt G cs ms iss).gitlabActivity.issues.length / (G + 1)) := by
    show 0 < G * (cs.length / (G + 1)) ∨ 0 < G * (ms.length / (G + 1))
      ∨ 0 < G * (iss.length / (G + 1))
    rcases hpos with h | h | h
    · exact Or.inl (Nat.mul_pos (by omega) h)
    · exact Or.inr (Or.inl (Nat.mul_pos (by omega) h))
    · exact Or.inr (Or.inr (Nat.mul_pos (by omega) h))
  have hnote2 := hnote hcondOr
  -- slice lengths: with p ≥ 1 each gap day receives exactly p items of that kind
  have hslice : ∀ (L : Nat) (m : Nat), m < G → G + 1 ≤ L →
      L / (G + 1) ≤ L - m * (L / (G + 1)) := by
    intro L m hm hL
    have h1 : L / (G + 1) * (G + 1) ≤ L := Nat.div_mul_le_self L (G + 1)
    have h2 : L / (G + 1) * (G + 1) = L / (G + 1) * G + L / (G + 1) := by
      rw [Nat.mul_succ]
    have h3 : (m + 1) * (L / (G + 1)) ≤ G * (L / (G + 1)) :=
      Nat.mul_le_mul_right _ (by omega)
    have h4 : (m + 1) * (L / (G + 1)) = m * (L / (G + 1)) + L / (G + 1) := by
      rw [Nat.succ_mul]
    have h5 : G * (L / (G + 1)) = L / (G + 1) * G := Nat.mul_comm _ _
    omega
  -- every day from index 1 on has activity after the gap run
  have hact2 : ∀ m (hm : m < (distributeWorkAcrossGap (gapConfig G cs ms iss).toArray 0 G G).size),
      1 ≤ m →
      hasAnyActivity (distributeWorkAcrossGap (gapConfig G cs ms iss).toArray 0 G G)[m]
        = true := by
    intro m hm h1m
    by_cases hmG : m < G
    · have hc := hmid m (by omega) hmG
      rw [Array.getElem?_eq_getElem hm] at hc
      have hval := Option.some.inj hc
      rw [hval]
      rw [hA m (by omega), if_pos hmG]
      rcases hbig with h | h | h
      · have hp : 0 < cs.length / (G + 1) := Nat.one_le_div_iff (by omega) |>.mpr h
        have hsl := hslice cs.length m hmG h
        simp [hasAnyActivity, emptyDayAt, sourceDayAt, List.length_take, List.length_drop]
        omega
      · have hp : 0 < ms.length / (G + 1) := Nat.one_le_div_iff (by omega) |>.mpr h
        have hsl := hslice ms.length m hmG h
        simp [hasAnyActivity, emptyDayAt, sourceDayAt, List.length_take, List.length_drop]
        omega
      · have hp : 0 < iss.length / (G + 1) := Nat.one_le_div_iff (by omega) |>.mpr h
        have hsl := hslice iss.length m hmG h
        simp [hasAnyActivity, emptyDayAt, sourceDayAt, List.length_take, List.length_drop]
        omega
    · have hmG2 : m = G := by omega
      subst hmG2
      have hc := hnote2
      rw [Array.getElem?_eq_getElem hm] at hc
      have hval := Option.some.inj hc
      rw [hval]
      simp [hasAnyActivity, sourceDayAt]
  -- now run the scan
  rw [distributeActivities_eq, sortActivities_eq_of_sorted (gapConfig_sorted G cs ms iss)]
  have hstep1 : distributeLoop (gapConfig G cs ms iss).toArray 0 0 0
      = (distributeWorkAcrossGap (gapConfig G cs ms iss).toArray 0 G G, G, 1) := by
    rw [distributeLoop, dif_pos (by omega : 0 < (gapConfig G cs ms iss).toArray.size)]
    rw [if_neg (by rw [hA0]; decide)]
    have hfind : findNextActivityDay (gapConfig G cs ms iss).toArray 0 = some G := by
      rw [findNextActivityDay]
      apply findNextActivityDayAux_first _ G (by omega)
        (by rw [hAG]; exact hsrcAct) 1 (by omega)
      intro m2 hm2 h1 h2
      rw [hA m2 hm2, if_pos (by omega)]
      rfl
    rw [hfind]
    simp only [Nat.sub_zero, Nat.zero_add]
    exact distributeLoop_all_active _ 1 G 1 hact2
  rw [hstep1]
  simp

theorem gap_slice_length (L G m : Nat) (hG : 1 ≤ G) (hm : m < G) :
    min (L / (G + 1)) (L - m * (L / (G + 1))) = L / (G + 1) := by
  by_cases hp : L / (G + 1) = 0
  · rw [hp]
    simp
  · have hL : G + 1 ≤ L := (Nat.one_le_div_iff (show 0 < G + 1 by omega)).mp
      (Nat.pos_of_ne_zero hp)
    have h1 : L / (G + 1) * (G + 1) ≤ L := Nat.div_mul_le_self L (G + 1)
    have h2 : L / (G + 1) * (G + 1) = L / (G + 1) * G + L / (G + 1) := by
      rw [Nat.mul_succ]
    have h3 : (m + 1) * (L / (G + 1)) ≤ G * (L / (G + 1)) :=
      Nat.mul_le_mul_right _ (by omega)
    have h4 : (m + 1) * (L / (G + 1)) = m * (L / (G + 1)) + L / (G + 1) := by
      rw [Nat.succ_mul]
    have h5 : G * (L / (G + 1)) = L / (G + 1) * G := Nat.mul_comm _ _
    omega

/-- C5: corrected (the single-pass half).  When every gap day actually
receives work -- the canonical gap of `G` empty days before a source day with
at least `G + 1` items of some kind -- the maximal run of empty days is
consumed in one pass against one source day: `daysWithGaps = G` and
`daysDistributed = 1`. -/
theorem distributeActivities_gap_single_pass (G : Nat) (hG : 1 ≤ G) (cs : List Commit) (ms : List MergeRequest)
    (iss : List Issue)
    (hbig : G + 1 ≤ cs.length ∨ G + 1 ≤ ms.length ∨ G + 1 ≤ iss.length) :
    (distributeActivities (gapConfig G cs ms iss)).distributionInfo
      = { daysWithGaps := G, daysDistributed := 1, message := distributedMessage G } := by
  rw [gapConfig_run G hG cs ms iss hbig]

/-- C1: corrected.  `distributeWorkAcrossGap` copies slices instead of moving
them: each of the `G` gap days receives its `[Distributed]`-tagged slice of
`len / (G+1)` items per kind, while the source day keeps every original item
(plus the marker commit), so the backfilled commits sum to
`G * (C / (G+1))` in addition to the `C` commits still on the source day. -/
theorem distributeActivities_gap_copies_slices (G : Nat) (hG : 1 ≤ G) (cs : List Commit) (ms : List MergeRequest)
    (iss : List Issue)
    (hbig : G + 1 ≤ cs.length ∨ G + 1 ≤ ms.length ∨ G + 1 ≤ iss.length) :
    ((distributeActivities (gapConfig G cs ms iss)).activities.length = G + 1) ∧
    (∀ m, m < G →
      (((distributeActivities (gapConfig G cs ms iss)).activities.getD m
          default).gitlabActivity.commits
        = ((cs.drop (m * (cs.length / (G + 1)))).take (cs.length / (G + 1))).map tagCommit ∧
      ((distributeActivities (gapConfig G cs ms iss)).activities.getD m
          default).gitlabActivity.mergeRequests
        = ((ms.drop (m * (ms.length / (G + 1)))).take (ms.length / (G + 1))).map
            tagMergeRequest ∧
      ((distributeActivities (gapConfig G cs ms iss)).activities.getD m
          default).gitlabActivity.issues
        = ((iss.drop (m * (iss.length / (G + 1)))).take (iss.length / (G + 1))).map tagIssue)) ∧
    (((distributeActivities (gapConfig G cs ms iss)).activities.getD G
        default).gitlabActivity.commits = distributionNote G :: cs ∧
      ((distributeActivities (gapConfig G cs ms iss)).activities.getD G
        default).gitlabActivity.mergeRequests = ms ∧
      ((distributeActivities (gapConfig G cs ms iss)).activities.getD G
        default).gitlabActivity.issues = iss) ∧
    ((((distributeActivities (gapConfig G cs ms iss)).activities.take G).map
        (fun d => d.gitlabActivity.commits.length)).sum = G * (cs.length / (G + 1))) := by
  have hlen := gapConfig_length G cs ms iss
  have hszA : (gapConfig G cs ms iss).toArray.size = G + 1 := by
    rw [Array.size_toArray, hlen]
  have hA : ∀ m (hm : m < (gapConfig G cs ms iss).toArray.size),
      (gapConfig G cs ms iss).toArray[m]
        = if m < G then emptyDayAt m else sourceDayAt G cs ms iss := by
    intro m hm
    rw [List.getElem_toArray]
    exact gapConfig_getElem G cs ms iss m (by omega)
  have hAG : (gapConfig G cs ms iss).toArray[G] = sourceDayAt G cs ms iss := by
    rw [hA G (by omega), if_neg (by omega)]
  obtain ⟨hnote, hmid⟩ := distributeWorkAcrossGap_run G (gapConfig G cs ms iss).toArray
    (sourceDayAt G cs ms iss) (by omega) hAG
  have harr1sz : (distributeWorkAcrossGap (gapConfig G cs ms iss).toArray 0 G G).size
      = G + 1 := by
    rw [distributeWorkAcrossGap_size]
    exact hszA
  have hcondOr : 0 < G * ((sourceDayAt G cs ms iss).gitlabActivity.commits.length / (G + 1))
      ∨ 0 < G * ((sourceDayAt G cs ms iss).gitlabActivity.mergeRequests.length / (G + 1))
      ∨ 0 < G * ((sourceDayAt G cs ms iss).gitlabActivity.issues.length / (G + 1)) := by
    show 0 < G * (cs.length / (G + 1)) ∨ 0 < G * (ms.length / (G + 1))
      ∨ 0 < G * (iss.length / (G + 1))
    rcases hbig with h | h | h
    · exact Or.inl (Nat.mul_pos (by omega) ((Nat.one_le_div_iff (by omega)).mpr h))
    · exact Or.inr (Or.inl (Nat.mul_pos (by omega) ((Nat.one_le_div_iff (by omega)).mpr h)))
    · exact Or.inr (Or.inr (Nat.mul_pos (by omega) ((Nat.one_le_div_iff (by omega)).mpr h)))
  have hnote2 := hnote hcondOr
  have hmid2 : ∀ m, m < G →
      (distributeWorkAcrossGap (gapConfig G cs ms iss).toArray 0 G G).toList.getD m default
        = { emptyDayAt (m : Int) with gitlabActivity :=
            { date := (m : Int)
              commits := ((cs.drop (m * (cs.length / (G + 1)))).take
                (cs.length / (G + 1))).map tagCommit
              mergeRequests := ((ms.drop (m * (ms.length / (G + 1)))).take
                (ms.length / (G + 1))).map tagMergeRequest
              issues := ((iss.drop (m * (iss.length / (G + 1)))).take
                (iss.length / (G + 1))).map tagIssue } } := by
    intro m hmG
    have hc := hmid m (by omega) hmG
    rw [hA m (by omega), if_pos hmG] at hc
    rw [List.getD_eq_getElem?_getD]
    rw [show ((distributeWorkAcrossGap (gapConfig G cs ms iss).toArray 0 G G).toList)[m]?
        = (distributeWorkAcrossGap (gapConfig G cs ms iss).toArray 0 G G)[m]? from rfl]
    rw [hc]
    simp [emptyDayAt, sourceDayAt]
  have hsrc2 : (distributeWorkAcrossGap (gapConfig G cs ms iss).toArray 0 G G).toList.getD G
        default
      = { sourceDayAt G cs ms iss with gitlabActivity :=
          { (sourceDayAt G cs ms iss).gitlabActivity with
              commits := distributionNote G :: cs } } := by
    rw [List.getD_eq_getElem?_getD]
    rw [show ((distributeWorkAcrossGap (gapConfig G cs ms iss).toArray 0 G G).toList)[G]?
        = (distributeWorkAcrossGap (gapConfig G cs ms iss).toArray 0 G G)[G]? from rfl]
    rw [hnote2]
    rfl
  rw [gapConfig_run G hG cs ms iss hbig]
  refine ⟨?_, ?_, ?_, ?_⟩
  · rw [Array.length_toList, harr1sz]
  · intro m hmG
    rw [hmid2 m hmG]
    exact ⟨rfl, rfl, rfl⟩
  · rw [hsrc2]
    exact ⟨rfl, rfl, rfl⟩
  · have hmap : (((distributeWorkAcrossGap (gapConfig G cs ms iss).toArray 0 G G).toList.take
        G).map (fun d => d.gitlabActivity.commits.length))
        = List.replicate G (cs.length / (G + 1)) := by
      apply List.eq_replicate_iff.mpr
      constructor
      · rw [List.length_map, List.length_take, Array.length_toList, harr1sz]
        omega
      · intro b hb
        rcases List.mem_map.mp hb with ⟨d, hd, rfl⟩
        rcases List.mem_iff_getElem.mp hd with ⟨t, ht, hdt⟩
        have htG : t < G := by
          rw [List.length_take] at ht
          omega
        rw [List.getElem_take] at hdt
        have hbound : t < ((distributeWorkAcrossGap
            (gapConfig G cs ms iss).toArray 0 G G).toList).length := by
          rw [Array.length_toList, harr1sz]
          omega
        have hgd := List.getD_eq_getElem
          ((distributeWorkAcrossGap (gapConfig G cs ms iss).toArray 0 G G).toList)
          default hbound
        rw [hdt] at hgd
        rw [hmid2 t htG] at hgd
        rw [← hgd]
        simp only [List.length_map, List.length_take, List.length_drop]
        exact gap_slice_length cs.length G t hG htG
    rw [hmap, List.sum_replicate, smul_eq_mul]

/-! ## C4: single-failure isolation in the parallel orchestration -/

theorem fetchDayActivityParallel_congr_gitlab (now ttl off : Int)
    (f g gh : String → Except Unit GitLabActivity)
    (gc oc : String → Except Unit (List CalendarEvent))
    (glA ghA goA ooA fr : Bool) (s : String) (h : f s = g s) :
    fetchDayActivityParallel now ttl off f gh gc oc glA ghA goA ooA fr s
      = fetchDayActivityParallel now ttl off g gh gc oc glA ghA goA ooA fr s := by
  simp only [fetchDayActivityParallel, fetchGitLabActivityWithCache, h]

theorem fetchGitLabActivityWithCache_empty_error (now ttl off : Int)
    (F : String → Except Unit GitLabActivity) (s : String) (fr : Bool)
    (h : F s = .error ()) :
    fetchGitLabActivityWithCache (emptyActivityCache ttl) now off F s fr = .error () := by
  cases fr <;>
    simp [fetchGitLabActivityWithCache, getGitLabActivity, nsLookup, emptyActivityCache,
      emptyCacheData, h]

theorem fetchGitLabActivityWithCache_empty_ok (now ttl off : Int)
    (F : String → Except Unit GitLabActivity) (s : String) (fr : Bool) (a : GitLabActivity)
    (h : F s = .ok a) :
    ∃ c, fetchGitLabActivityWithCache (emptyActivityCache ttl) now off F s fr
      = .ok ((a, false), c) := by
  cases fr
  · refine ⟨setGitLabActivity
      (getGitLabActivity (emptyActivityCache ttl) now (localDateOf off s)).2 now
      (localDateOf off s) a, ?_⟩
    simp [fetchGitLabActivityWithCache, getGitLabActivity, nsLookup,
      emptyActivityCache, emptyCacheData, h]
  · refine ⟨setGitLabActivity (emptyActivityCache ttl) now (localDateOf off s) a, ?_⟩
    simp [fetchGitLabActivityWithCache, getGitLabActivity, nsLookup,
      emptyActivityCache, emptyCacheData, h]

/-- C4: if exactly one provider's fetch (here GitLab's) rejects, and only on
day `dstar`, `fetchMultipleDaysParallel` still returns one complete
`DayActivity` record per requested day with no error escalated: every day
other than `dstar` is identical to a run with the repaired provider, and on
`dstar` the date, the meetings and the other git provider's contribution are
intact while the failing provider contributes an empty payload. -/
theorem parallel_single_failure_isolated (now ttl off : Int)
    (gl glOK gh : String → Except Unit GitLabActivity)
    (gc oc : String → Except Unit (List CalendarEvent))
    (ghAuth goAuth ooAuth fr : Bool)
    (dates : List String) (dstar : String) (a : GitLabActivity)
    (hfail : gl dstar = .error ())
    (hrepair : ∀ s, s ≠ dstar → gl s = glOK s)
    (hok : glOK dstar = .ok a) :
    (fetchMultipleDaysParallel now ttl off gl gh gc oc true ghAuth goAuth ooAuth fr
        dates).length = dates.length ∧
    (∀ i, i < dates.length → dates.getD i "" ≠ dstar →
      (fetchMultipleDaysParallel now ttl off gl gh gc oc true ghAuth goAuth ooAuth fr
          dates).getD i default
        = (fetchMultipleDaysParallel now ttl off glOK gh gc oc true ghAuth goAuth ooAuth fr
            dates).getD i default) ∧
    (∀ i, i < dates.length → dates.getD i "" = dstar →
      ((fetchMultipleDaysParallel now ttl off gl gh gc oc true ghAuth goAuth ooAuth fr
          dates).getD i default).1.date
        = ((fetchMultipleDaysParallel now ttl off glOK gh gc oc true ghAuth goAuth ooAuth fr
            dates).getD i default).1.date ∧
      ((fetchMultipleDaysParallel now ttl off gl gh gc oc true ghAuth goAuth ooAuth fr
          dates).getD i default).1.meetings
        = ((fetchMultipleDaysParallel now ttl off glOK gh gc oc true ghAuth goAuth ooAuth fr
            dates).getD i default).1.meetings ∧
      a.commits ++ ((fetchMultipleDaysParallel now ttl off gl gh gc oc true ghAuth goAuth
          ooAuth fr dates).getD i default).1.gitlabActivity.commits
        = ((fetchMultipleDaysParallel now ttl off glOK gh gc oc true ghAuth goAuth ooAuth fr
            dates).getD i default).1.gitlabActivity.commits ∧
      a.mergeRequests ++ ((fetchMultipleDaysParallel now ttl off gl gh gc oc true ghAuth
          goAuth ooAuth fr dates).getD i default).1.gitlabActivity.mergeRequests
        = ((fetchMultipleDaysParallel now ttl off glOK gh gc oc true ghAuth goAuth ooAuth fr
            dates).getD i default).1.gitlabActivity.mergeRequests ∧
      a.issues ++ ((fetchMultipleDaysParallel now ttl off gl gh gc oc true ghAuth goAuth
          ooAuth fr dates).getD i default).1.gitlabActivity.issues
        = ((fetchMultipleDaysParallel now ttl off glOK gh gc oc true ghAuth goAuth ooAuth fr
            dates).getD i default).1.gitlabActivity.issues) := by
  refine ⟨by simp [fetchMultipleDaysParallel], ?_, ?_⟩
  · intro i hi hne
    have hl1 : i < (fetchMultipleDaysParallel now ttl off gl gh gc oc true ghAuth goAuth
        ooAuth fr dates).length := by
      simp only [fetchMultipleDaysParallel, List.length_map]
      exact hi
    have hl2 : i < (fetchMultipleDaysParallel now ttl off glOK gh gc oc true ghAuth goAuth
        ooAuth fr dates).length := by
      simp only [fetchMultipleDaysParallel, List.length_map]
      exact hi
    rw [List.getD_eq_getElem _ _ hl1, List.getD_eq_getElem _ _ hl2]
    simp only [fetchMultipleDaysParallel, List.getElem_map]
    have hde : dates.getD i "" = dates[i] := List.getD_eq_getElem dates "" hi
    rw [hde] at hne
    exact fetchDayActivityParallel_congr_gitlab now ttl off gl glOK gh gc oc true ghAuth
      goAuth ooAuth fr dates[i] (hrepair _ hne)
  · intro i hi heq
    have hl1 : i < (fetchMultipleDaysParallel now ttl off gl gh gc oc true ghAuth goAuth
        ooAuth fr dates).length := by
      simp only [fetchMultipleDaysParallel, List.length_map]
      exact hi
    have hl2 : i < (fetchMultipleDaysParallel now ttl off glOK gh gc oc true ghAuth goAuth
        ooAuth fr dates).length := by
      simp only [fetchMultipleDaysParallel, List.length_map]
      exact hi
    rw [List.getD_eq_getElem _ _ hl1, List.getD_eq_getElem _ _ hl2]
    simp only [fetchMultipleDaysParallel, List.getElem_map]
    have hde : dates.getD i "" = dates[i] := List.getD_eq_getElem dates "" hi
    rw [hde] at heq
    rw [heq]
    have hglfail := fetchGitLabActivityWithCache_empty_error now ttl off gl dstar fr hfail
    obtain ⟨c1, hglok⟩ := fetchGitLabActivityWithCache_empty_ok now ttl off glOK dstar fr
      a hok
    simp [fetchDayActivityParallel, hglfail, hglok, settleDayActivity, mergeGitActivities,
      emptyGitActivity]

theorem distribute_trailing_gap_untouched_witness :
    ((distributeActivities ([commitsDayAt 0 [plainCommit "a"]]
        ++ [emptyDayAt 1])).activities.drop 1 = [emptyDayAt 1]) ∧
    ((distributeActivitiesIntelligent ([commitsDayAt 0 [plainCommit "a"]]
        ++ [emptyDayAt 1])).activities.drop 1 = [emptyDayAt 1]) :=
  distribute_trailing_gap_untouched [commitsDayAt 0 [plainCommit "a"]] [emptyDayAt 1]
    (by simp [List.sorted_cons, commitsDayAt, emptyDayAt])
    (by decide) (by decide)

theorem distributeActivities_gap_single_pass_witness :
    (distributeActivities (gapConfig 2 [plainCommit "a", plainCommit "b", plainCommit "c"]
        [] [])).distributionInfo
      = { daysWithGaps := 2, daysDistributed := 1, message := distributedMessage 2 } :=
  distributeActivities_gap_single_pass 2 (by decide) [plainCommit "a", plainCommit "b", plainCommit "c"] [] []
    (Or.inl (by decide))

theorem distributeActivities_gap_copies_slices_witness :
    ((distributeActivities (gapConfig 2 [plainCommit "a", plainCommit "b", plainCommit "c"]
        [] [])).activities.length = 3) ∧
    (((distributeActivities (gapConfig 2 [plainCommit "a", plainCommit "b", plainCommit "c"]
        [] [])).activities.getD 0 default).gitlabActivity.commits
      = ((([plainCommit "a", plainCommit "b", plainCommit "c"].drop
          (0 * ([plainCommit "a", plainCommit "b", plainCommit "c"].length / 3))).take
          ([plainCommit "a", plainCommit "b", plainCommit "c"].length / 3)).map tagCommit)) ∧
    (((distributeActivities (gapConfig 2 [plainCommit "a", plainCommit "b", plainCommit "c"]
        [] [])).activities.getD 2 default).gitlabActivity.commits
      = distributionNote 2 :: [plainCommit "a", plainCommit "b", plainCommit "c"]) ∧
    ((((distributeActivities (gapConfig 2 [plainCommit "a", plainCommit "b",
        plainCommit "c"] [] [])).activities.take 2).map
          (fun d => d.gitlabActivity.commits.length)).sum
      = 2 * ([plainCommit "a", plainCommit "b", plainCommit "c"].length / 3)) := by
  have h := distributeActivities_gap_copies_slices 2 (by decide) [plainCommit "a", plainCommit "b", plainCommit "c"]
    [] [] (Or.inl (by decide))
  exact ⟨h.1, (h.2.1 0 (by decide)).1, h.2.2.1.1, h.2.2.2⟩

theorem parallel_single_failure_isolated_witness :
    (fetchMultipleDaysParallel 0 1000 0 wGl wGh wGc wOc true true true false false
        ["2024-03-10", "2024-03-11"]).length = 2 ∧
    (fetchMultipleDaysParallel 0 1000 0 wGl wGh wGc wOc true true true false false
        ["2024-03-10", "2024-03-11"]).getD 0 default
      = (fetchMultipleDaysParallel 0 1000 0 wGlOK wGh wGc wOc true true true false false
          ["2024-03-10", "2024-03-11"]).getD 0 default ∧
    wAct.commits ++ ((fetchMultipleDaysParallel 0 1000 0 wGl wGh wGc wOc true true true
        false false ["2024-03-10", "2024-03-11"]).getD 1 default).1.gitlabActivity.commits
      = ((fetchMultipleDaysParallel 0 1000 0 wGlOK wGh wGc wOc true true true false false
          ["2024-03-10", "2024-03-11"]).getD 1 default).1.gitlabActivity.commits := by
  have h := parallel_single_failure_isolated 0 1000 0 wGl wGlOK wGh wGc wOc true true false false
    ["2024-03-10", "2024-03-11"] "2024-03-11" wAct
    (by simp [wGl]) (fun s hs => by simp [wGl, wGlOK, hs]) (by simp [wGlOK])
  exact ⟨h.1, h.2.1 0 (by decide) (by decide), (h.2.2 1 (by decide) (by decide)).2.2.1⟩

end ActivityCollector
